import Mathlib

/-!
Verification development for the kubrun pool and lease manager.

The Go source is shallowly embedded: cluster-side state (deployments and
services with their labels and annotations) is explicit data, every
orchestrator call is a pure function on that state, and the nondeterministic
inputs of the real system (fresh uids, the injected clock, fault outcomes of
cluster calls) are explicit parameters.  RFC-3339 timestamps are modeled by
their instant (a Nat of seconds): the format is injective and parsing is its
inverse, so an annotation value is either a well-formed timestamp (time t) or
an unparseable string (raw s).  Go panics are modeled as a distinguished
outcome, separate from returned errors.
-/

/-- Association-list lookup, modeling Go map indexing (labels, annotations). -/
def aget {β : Type} : List (String × β) → String → Option β
  | [], _ => none
  | (k, v) :: rest, key => if k = key then some v else aget rest key

/-- Association-list upsert, modeling Go map assignment and JSON-Patch add. -/
def aset {β : Type} : List (String × β) → String → β → List (String × β)
  | [], key, v => [(key, v)]
  | (k, v') :: rest, key, v =>
    if k = key then (key, v) :: rest else (k, v') :: aset rest key v

/-- Association-list removal, modeling JSON-Patch remove. -/
def aremove {β : Type} : List (String × β) → String → List (String × β)
  | [], _ => []
  | (k, v) :: rest, key =>
    if k = key then aremove rest key else (k, v) :: aremove rest key

theorem aget_aset_self {β : Type} (m : List (String × β)) (k : String) (v : β) :
    aget (aset m k v) k = some v := by
  induction m with
  | nil => simp [aset, aget]
  | cons hd tl ih =>
    obtain ⟨k', v'⟩ := hd
    by_cases h : k' = k
    · simp [aset, aget, h]
    · simp [aset, aget, h, ih]

theorem aget_aset_ne {β : Type} (m : List (String × β)) (k k' : String) (v : β)
    (h : k ≠ k') : aget (aset m k v) k' = aget m k' := by
  induction m with
  | nil => simp [aset, aget, h]
  | cons hd tl ih =>
    obtain ⟨k₀, v₀⟩ := hd
    by_cases h₀ : k₀ = k
    · subst h₀; simp [aset, aget, h]
    · simp [aset, aget, h₀, ih]

theorem aget_aremove_self {β : Type} (m : List (String × β)) (k : String) :
    aget (aremove m k) k = none := by
  induction m with
  | nil => simp [aremove, aget]
  | cons hd tl ih =>
    obtain ⟨k₀, v₀⟩ := hd
    by_cases h₀ : k₀ = k
    · simp [aremove, h₀, ih]
    · simp [aremove, aget, h₀, ih]

theorem aget_aremove_ne {β : Type} (m : List (String × β)) (k k' : String)
    (h : k ≠ k') : aget (aremove m k) k' = aget m k' := by
  induction m with
  | nil => simp [aremove]
  | cons hd tl ih =>
    obtain ⟨k₀, v₀⟩ := hd
    by_cases h₀ : k₀ = k
    · subst h₀; simp [aremove, aget, h, ih]
    · simp [aremove, aget, h₀, ih]

/-! ## The name sanitizer (K8sNameString, src/unnamed/part_002)

Go: join the parts with "-", lowercase, then replace every maximal run of
characters outside [-a-z0-9] by a single "-".  Character classes are stated
on code points; lowercasing is the ASCII shift A-Z to a-z (the Go library
lowercases all of Unicode, but no non-ASCII character lowercases into the
admitted class, so the collapse step erases the difference). -/

/-- A character admitted by the regex class [-a-z0-9]. -/
def isK8sNameChar (c : Char) : Bool :=
  c.toNat = 45 || (97 ≤ c.toNat && c.toNat ≤ 122) || (48 ≤ c.toNat && c.toNat ≤ 57)

/-- ASCII lowercasing as performed by strings.ToLower on ASCII input. -/
def goLowerChar (c : Char) : Char :=
  if 65 ≤ c.toNat && c.toNat ≤ 90 then Char.ofNat (c.toNat + 32) else c

/-- Replace each maximal run of invalid characters by a single dash.  The
Bool flag records whether the previous character was part of such a run. -/
def collapseGo : Bool → List Char → List Char
  | _, [] => []
  | prevBad, c :: rest =>
    if isK8sNameChar c then c :: collapseGo false rest
    else if prevBad then collapseGo true rest
    else '-' :: collapseGo true rest

def sanitizeChars (l : List Char) : List Char :=
  collapseGo false (l.map goLowerChar)

/-- strings.Join(strs, "-"). -/
def joinDash : List String → String
  | [] => ""
  | [s] => s
  | s :: rest => s ++ "-" ++ joinDash rest

/-- K8sNameString from the source: join with "-", lowercase, collapse runs of
invalid characters to "-". -/
def K8sNameString (strs : List String) : String :=
  String.mk (sanitizeChars (joinDash strs).data)

theorem collapseGo_valid (b : Bool) (l : List Char) :
    ∀ c ∈ collapseGo b l, isK8sNameChar c = true := by
  induction l generalizing b with
  | nil => simp [collapseGo]
  | cons hd tl ih =>
    intro c hc
    by_cases h : isK8sNameChar hd
    · simp only [collapseGo, if_pos h] at hc
      rcases List.mem_cons.mp hc with rfl | hc
      · exact h
      · exact ih false c hc
    · simp only [collapseGo, if_neg h] at hc
      cases b with
      | true =>
        rw [if_pos rfl] at hc
        exact ih true c hc
      | false =>
        rw [if_neg (by decide)] at hc
        rcases List.mem_cons.mp hc with rfl | hc
        · decide
        · exact ih true c hc

theorem goLowerChar_valid_id (c : Char) (h : isK8sNameChar c = true) :
    goLowerChar c = c := by
  simp only [isK8sNameChar, Bool.or_eq_true, Bool.and_eq_true, decide_eq_true_eq] at h
  simp only [goLowerChar, Bool.and_eq_true, decide_eq_true_eq]
  rw [if_neg]
  omega

theorem collapseGo_valid_id (l : List Char) (h : ∀ c ∈ l, isK8sNameChar c = true) :
    collapseGo false l = l := by
  induction l with
  | nil => rfl
  | cons hd tl ih =>
    have hhd : isK8sNameChar hd = true := h hd (by simp)
    simp only [collapseGo, if_pos hhd]
    rw [ih fun c hc => h c (by simp [hc])]

theorem sanitizeChars_valid (l : List Char) :
    ∀ c ∈ sanitizeChars l, isK8sNameChar c = true :=
  collapseGo_valid false (l.map goLowerChar)

theorem map_id_of_mem_eq {α : Type} (f : α → α) (l : List α)
    (h : ∀ a ∈ l, f a = a) : l.map f = l := by
  induction l with
  | nil => rfl
  | cons hd tl ih =>
    simp only [List.map_cons]
    rw [h hd (by simp), ih fun a ha => h a (by simp [ha])]

theorem sanitizeChars_idem (l : List Char) :
    sanitizeChars (sanitizeChars l) = sanitizeChars l := by
  have hvalid := sanitizeChars_valid l
  conv_lhs => rw [sanitizeChars]
  rw [map_id_of_mem_eq goLowerChar _ fun c hc => goLowerChar_valid_id c (hvalid c hc)]
  exact collapseGo_valid_id _ hvalid

theorem joinDash_singleton (s : String) : joinDash [s] = s := rfl

theorem K8sNameString_idem (strs : List String) :
    K8sNameString [K8sNameString strs] = K8sNameString strs := by
  show String.mk (sanitizeChars (joinDash [K8sNameString strs]).data) = _
  rw [joinDash_singleton]
  show String.mk (sanitizeChars (sanitizeChars (joinDash strs).data)) = _
  rw [sanitizeChars_idem]
  rfl

/-! ## Data model

Labels and annotations (src/unnamed/part_004).  An annotation value is either
a well-formed RFC-3339 timestamp, modeled by its instant, or any other string
(which time.Parse rejects). -/

def AnnotationExpireAfter : String := "kubrun/expire-after"

def LabelPoolId : String := "kubrun/pool-id"

def LabelTestId : String := "kubrun/test-id"

def LabelComponentType : String := "kubrun/component-type"

def LabelComponentName : String := "kubrun/component-name"

def LabelContainerName : String := "kubrun/container-name"

def LableIdle : String := "kubrun/idle"

def LableUid : String := "kubrun/uid"

/-- An annotation value: a parseable RFC-3339 timestamp (by its instant) or an
unparseable raw string. -/
inductive AnnVal where
  | time (t : Nat)
  | raw (s : String)
deriving DecidableEq, Repr

/-- A cluster object (deployment or service): the metadata the pool logic
reads and writes.  Pod template, replica count and port data are elided: no
pool operation branches on them. -/
structure KObject where
  name : String
  labels : List (String × String)
  annotations : List (String × AnnVal)
  creationTimestamp : Nat
deriving DecidableEq, Repr

/-- The namespace contents: ground truth for all pool state. -/
structure Cluster where
  deployments : List KObject
  services : List KObject
deriving DecidableEq, Repr

/-- Fault injection for the fallible cluster calls: list calls may fail as a
whole, deletes may fail per object name. -/
structure Faults where
  listDeploymentsFails : Bool
  listServicesFails : Bool
  deploymentDeleteFails : String → Bool
  serviceDeleteFails : String → Bool

def noFaults : Faults where
  listDeploymentsFails := false
  listServicesFails := false
  deploymentDeleteFails := fun _ => false
  serviceDeleteFails := fun _ => false

/-- PortBinding (src/unnamed/part_004). -/
structure PortBinding where
  containerPort : Nat
  hostPort : Nat
  protocol : String
deriving DecidableEq, Repr

/-- ContainerSpec (src/unnamed/part_004); env and port maps as lists. -/
structure ContainerSpec where
  repository : String
  tag : String
  env : List (String × String)
  cmd : List String
  portBindings : List (String × PortBinding)
deriving DecidableEq, Repr

/-- The SpawnAble capability set: the four getters the factory consumes.
WarmUpDeployment is exactly this record; RunInput projects onto it. -/
structure SpawnInput where
  poolId : String
  componentType : String
  containerName : String
  spec : ContainerSpec
deriving DecidableEq, Repr

/-- RunInput (src/unnamed/part_004); expireAfter is a duration in seconds. -/
structure RunInput where
  poolId : String
  testId : String
  testName : String
  componentType : String
  componentName : String
  containerName : String
  spec : ContainerSpec
  expireAfter : Nat
deriving DecidableEq, Repr

def RunInput.toSpawnInput (i : RunInput) : SpawnInput where
  poolId := i.poolId
  componentType := i.componentType
  containerName := i.containerName
  spec := i.spec

/-- ExtendInput (src/unnamed/part_004); duration in seconds. -/
structure ExtendInput where
  poolId : String
  testId : String
  duration : Nat
deriving DecidableEq, Repr

def ExtendInput.GetLabels (i : ExtendInput) : List (String × String) :=
  [(LabelPoolId, K8sNameString [i.poolId]),
   (LabelTestId, K8sNameString [i.testId])]

/-- StopInput (src/unnamed/part_004). -/
structure StopInput where
  poolId : String
  testId : String
deriving DecidableEq, Repr

def StopInput.GetLabels (i : StopInput) : List (String × String) :=
  [(LabelPoolId, K8sNameString [i.poolId]),
   (LabelTestId, K8sNameString [i.testId])]

/-- WarmUpInput (src/unnamed/part_005); the components map as a list in the
iteration order Go happens to use. -/
structure WarmUpInput where
  poolId : String
  components : List (String × Nat)
deriving DecidableEq, Repr

/-! ## Object factory (ApplicationFactory, src/unnamed/part_002)

The variant whose CreateService takes (uid, input), matching the calls in
ServicePool.spawnDeployment.  Both functions carry their own copy of the name
expression, as the source does.  The clock read time.Now() is the explicit
parameter now; the server-side creation timestamp is assigned by the cluster
create call, not here. -/

def ApplicationFactory.CreateDeployment (uid : String) (input : SpawnInput)
    (now : Nat) : KObject where
  name := K8sNameString ["p", input.poolId, uid, input.componentType, input.containerName]
  labels :=
    [(LabelPoolId, K8sNameString [input.poolId]),
     (LableUid, uid),
     (LabelComponentType, K8sNameString [input.componentType]),
     (LabelContainerName, K8sNameString [input.containerName]),
     (LableIdle, "true")]
  annotations := [(AnnotationExpireAfter, AnnVal.time (now + 3600))]
  creationTimestamp := 0

def ApplicationFactory.CreateService (uid : String) (input : SpawnInput)
    (now : Nat) : KObject where
  name := K8sNameString ["p", input.poolId, uid, input.componentType, input.containerName]
  labels :=
    [(LabelPoolId, K8sNameString [input.poolId]),
     (LableUid, uid),
     (LabelComponentType, K8sNameString [input.componentType]),
     (LabelContainerName, K8sNameString [input.containerName]),
     (LableIdle, "true")]
  annotations := [(AnnotationExpireAfter, AnnVal.time (now + 3600))]
  creationTimestamp := 0

/-! ## JSON-Patch operations (RFC 6902 semantics on metadata)

claimDeployment and ExtendServices issue add/remove/replace operations on
label and annotation keys.  Per RFC 6902: add is an upsert on an object
member, remove and replace require the member to exist. -/

inductive PatchOp where
  | removeLabel (k : String)
  | addLabel (k : String) (v : String)
  | addAnnotation (k : String) (v : AnnVal)
  | replaceAnnotation (k : String) (v : AnnVal)
deriving DecidableEq, Repr

def applyPatchOp (o : KObject) : PatchOp → Option KObject
  | PatchOp.removeLabel k =>
    if (aget o.labels k).isSome then
      some { o with labels := aremove o.labels k }
    else none
  | PatchOp.addLabel k v => some { o with labels := aset o.labels k v }
  | PatchOp.addAnnotation k v => some { o with annotations := aset o.annotations k v }
  | PatchOp.replaceAnnotation k v =>
    if (aget o.annotations k).isSome then
      some { o with annotations := aset o.annotations k v }
    else none

def applyPatchOps (o : KObject) : List PatchOp → Option KObject
  | [] => some o
  | op :: rest =>
    match applyPatchOp o op with
    | none => none
    | some o' => applyPatchOps o' rest

/-! ## Orchestrator client (K8sClient, src/unnamed/part_000)

List filters by a merged equality selector; create fails on a name conflict
(the cluster enforces name uniqueness per kind) and assigns the creation
timestamp; get finds by name; patch resolves the target by name and applies
the JSON-Patch document; delete removes by name and may fail per Faults. -/

/-- An object matches a label selector when every selector entry equals the
corresponding label. -/
def matchesSelector (sel : List (String × String)) (o : KObject) : Bool :=
  sel.all fun kv => aget o.labels kv.1 = some kv.2

def K8sClient.ListDeployments (f : Faults) (c : Cluster)
    (sel : List (String × String)) : Except String (List KObject) :=
  if f.listDeploymentsFails then Except.error "could not list deployments"
  else Except.ok (c.deployments.filter (matchesSelector sel))

def K8sClient.ListServices (f : Faults) (c : Cluster)
    (sel : List (String × String)) : Except String (List KObject) :=
  if f.listServicesFails then Except.error "could not list services"
  else Except.ok (c.services.filter (matchesSelector sel))

def K8sClient.CreateDeployment (c : Cluster) (now : Nat) (d : KObject) :
    Except String (KObject × Cluster) :=
  if c.deployments.any fun o => o.name = d.name then
    Except.error "could not create deployment"
  else
    let d' : KObject := { d with creationTimestamp := now }
    Except.ok (d', { c with deployments := c.deployments ++ [d'] })

def K8sClient.CreateService (c : Cluster) (now : Nat) (s : KObject) :
    Except String (KObject × Cluster) :=
  if c.services.any fun o => o.name = s.name then
    Except.error "could not create service"
  else
    let s' : KObject := { s with creationTimestamp := now }
    Except.ok (s', { c with services := c.services ++ [s'] })

def K8sClient.GetService (c : Cluster) (n : String) : Except String KObject :=
  match c.services.find? fun o => o.name = n with
  | none => Except.error "could not get service"
  | some s => Except.ok s

/-- Patch the object with the given name inside a list: resolve by name,
apply the document, store the result back under that name. -/
def patchObjectsByName (objs : List KObject) (n : String) (ops : List PatchOp) :
    Except String (KObject × List KObject) :=
  match objs.find? fun o => o.name = n with
  | none => Except.error ("could not patch " ++ n)
  | some o =>
    match applyPatchOps o ops with
    | none => Except.error ("could not patch " ++ n)
    | some o' => Except.ok (o', objs.map fun p => if p.name = n then o' else p)

def K8sClient.PatchDeployment (c : Cluster) (n : String) (ops : List PatchOp) :
    Except String (KObject × Cluster) :=
  match patchObjectsByName c.deployments n ops with
  | Except.error e => Except.error e
  | Except.ok (d', ds) => Except.ok (d', { c with deployments := ds })

def K8sClient.PatchService (c : Cluster) (n : String) (ops : List PatchOp) :
    Except String (KObject × Cluster) :=
  match patchObjectsByName c.services n ops with
  | Except.error e => Except.error e
  | Except.ok (s', ss) => Except.ok (s', { c with services := ss })

def K8sClient.DeleteDeployment (f : Faults) (c : Cluster) (n : String) :
    Except String Cluster :=
  if f.deploymentDeleteFails n then Except.error "could not delete deployment"
  else Except.ok { c with deployments := c.deployments.filter fun o => o.name ≠ n }

def K8sClient.DeleteService (f : Faults) (c : Cluster) (n : String) :
    Except String Cluster :=
  if f.serviceDeleteFails n then Except.error "could not delete service"
  else Except.ok { c with services := c.services.filter fun o => o.name ≠ n }

/-! ## ServicePool operations (src/pool.go)

The pool holds its raw id (manager key) and an injected clock; both appear as
explicit parameters.  The fresh uid drawn from a UUIDv4 per spawn is an
explicit parameter as well. -/

/-- Outcome of a Go call: a value, a returned error, or a runtime panic. -/
inductive GoResult (α : Type) where
  | ok (a : α)
  | err (msg : String)
  | panicked (msg : String)
deriving DecidableEq, Repr

/-- spawnDeployment: create the factory deployment, then the factory service,
wrapping either failure. -/
def spawnDeployment (uid : String) (now : Nat) (input : SpawnInput)
    (c : Cluster) : Except String (KObject × Cluster) :=
  match K8sClient.CreateDeployment c now (ApplicationFactory.CreateDeployment uid input now) with
  | Except.error e => Except.error ("could not create deployment: " ++ e)
  | Except.ok (d, c₁) =>
    match K8sClient.CreateService c₁ now (ApplicationFactory.CreateService uid input now) with
    | Except.error e => Except.error ("could not create service: " ++ e)
    | Except.ok (_, c₂) => Except.ok (d, c₂)

/-- The JSON-Patch document issued by claimDeployment: remove idle, add
test-id and component-name with the input values as given, add the new
expire-after deadline. -/
def claimOps (input : RunInput) (now : Nat) : List PatchOp :=
  [PatchOp.removeLabel LableIdle,
   PatchOp.addLabel LabelTestId input.testId,
   PatchOp.addLabel LabelComponentName input.componentName,
   PatchOp.addAnnotation AnnotationExpireAfter (AnnVal.time (now + input.expireAfter))]

/-- claimDeployment: patch the deployment, get the paired service by the
deployment name, patch the service the same way, return the service. -/
def claimDeployment (now : Nat) (d : KObject) (input : RunInput) (c : Cluster) :
    Except String (KObject × Cluster) :=
  match K8sClient.PatchDeployment c d.name (claimOps input now) with
  | Except.error e => Except.error ("could not patch deployment: " ++ e)
  | Except.ok (d', c₁) =>
    match K8sClient.GetService c₁ d'.name with
    | Except.error e => Except.error ("could not get service: " ++ e)
    | Except.ok s =>
      match K8sClient.PatchService c₁ s.name (claimOps input now) with
      | Except.error e => Except.error ("could not patch service: " ++ e)
      | Except.ok (s', c₂) => Except.ok (s', c₂)

/-- The selector ClaimService lists idle workloads with: the raw pool id and
the raw input fields, plus idle=true. -/
def claimSelector (poolId : String) (input : RunInput) : List (String × String) :=
  [(LabelPoolId, poolId),
   (LabelComponentType, input.componentType),
   (LabelContainerName, input.containerName),
   (LableIdle, "true")]

/-- Insertion step of the creation-timestamp sort: the element goes in front
of the first entry it is strictly older than (the comparator returns -1
exactly when strictly before, else 1). -/
def insertByCreation (d : KObject) : List KObject → List KObject
  | [] => [d]
  | e :: rest =>
    if d.creationTimestamp < e.creationTimestamp then d :: e :: rest
    else e :: insertByCreation d rest

/-- slices.SortFunc by creation timestamp, ascending; ties keep an arbitrary
admissible order (insertion order here). -/
def sortByCreation : List KObject → List KObject
  | [] => []
  | d :: rest => insertByCreation d (sortByCreation rest)

/-- ClaimService: spawn one fresh pair, list idle workloads, sort ascending
by creation timestamp, index the first element (a Go panic when the slice is
empty), and claim it. -/
def ClaimService (f : Faults) (poolId : String) (uid : String) (now : Nat)
    (input : RunInput) (c : Cluster) : GoResult (KObject × Cluster) :=
  match spawnDeployment uid now input.toSpawnInput c with
  | Except.error e => GoResult.err ("could not spawn deployment: " ++ e)
  | Except.ok (_, c₁) =>
    match K8sClient.ListDeployments f c₁ (claimSelector poolId input) with
    | Except.error e => GoResult.err ("failed to list deployments: " ++ e)
    | Except.ok deployments =>
      match sortByCreation deployments with
      | [] => GoResult.panicked "runtime error: index out of range [0] with length 0"
      | d :: _ =>
        match claimDeployment now d input c₁ with
        | Except.error e => GoResult.err ("could not claim deployment: " ++ e)
        | Except.ok (s, c₂) => GoResult.ok (s, c₂)

/-- The JSON-Patch document issued by ExtendServices: one replace of the
expire-after annotation with the new deadline. -/
def extendOps (deadline : Nat) : List PatchOp :=
  [PatchOp.replaceAnnotation AnnotationExpireAfter (AnnVal.time deadline)]

/-- Patch each listed object in turn by name, wrapping the first failure. -/
def patchEach (wrap : String) (ops : List PatchOp) :
    List KObject → List KObject → Except String (List KObject)
  | [], objs => Except.ok objs
  | d :: rest, objs =>
    match patchObjectsByName objs d.name ops with
    | Except.error e => Except.error (wrap ++ ": " ++ e)
    | Except.ok (_, objs') => patchEach wrap ops rest objs'

/-- ExtendServices: list deployments and services carrying the sanitized
pool-id and test-id, patching each with the new deadline. -/
def ExtendServices (f : Faults) (now : Nat) (input : ExtendInput) (c : Cluster) :
    Except String Cluster :=
  let ops := extendOps (now + input.duration)
  match K8sClient.ListDeployments f c input.GetLabels with
  | Except.error e => Except.error ("could not list deployments: " ++ e)
  | Except.ok ds =>
    match patchEach "could not patch deployment" ops ds c.deployments with
    | Except.error e => Except.error e
    | Except.ok deployments' =>
      let c₁ : Cluster := { c with deployments := deployments' }
      match K8sClient.ListServices f c₁ input.GetLabels with
      | Except.error e => Except.error ("could not list services: " ++ e)
      | Except.ok ss =>
        match patchEach "could not patch service" ops ss c₁.services with
        | Except.error e => Except.error e
        | Except.ok services' => Except.ok { c₁ with services := services' }

/-- Delete each listed deployment in turn, wrapping the first failure. -/
def deleteDeployments (f : Faults) : List KObject → Cluster → Except String Cluster
  | [], c => Except.ok c
  | d :: rest, c =>
    match K8sClient.DeleteDeployment f c d.name with
    | Except.error e => Except.error ("could not delete deployment: " ++ e)
    | Except.ok c' => deleteDeployments f rest c'

/-- Delete each listed service in turn, wrapping the first failure. -/
def deleteServices (f : Faults) : List KObject → Cluster → Except String Cluster
  | [], c => Except.ok c
  | s :: rest, c =>
    match K8sClient.DeleteService f c s.name with
    | Except.error e => Except.error ("could not delete service: " ++ e)
    | Except.ok c' => deleteServices f rest c'

/-- ReleaseServices: list and delete every deployment, then every service,
matching the given labels. -/
def ReleaseServices (f : Faults) (labels : List (String × String)) (c : Cluster) :
    Except String Cluster :=
  match K8sClient.ListDeployments f c labels with
  | Except.error e => Except.error ("could not list deployments: " ++ e)
  | Except.ok ds =>
    match deleteDeployments f ds c with
    | Except.error e => Except.error e
    | Except.ok c₁ =>
      match K8sClient.ListServices f c₁ labels with
      | Except.error e => Except.error ("could not list services: " ++ e)
      | Except.ok ss =>
        match deleteServices f ss c₁ with
        | Except.error e => Except.error e
        | Except.ok c₂ => Except.ok c₂

/-! ## The built-in spec catalog and WarmUp (src/pool.go) -/

def specs : List (String × ContainerSpec) :=
  [("ddb",
    { repository := "amazon/dynamodb-local", tag := "2.5.4", env := [], cmd := [],
      portBindings := [("main", { containerPort := 8000, hostPort := 0, protocol := "tcp" })] }),
   ("localstack",
    { repository := "localstack/localstack", tag := "4.1.0", env := [], cmd := [],
      portBindings := [("main", { containerPort := 4566, hostPort := 0, protocol := "tcp" })] }),
   ("mysql",
    { repository := "mysql/mysql-server", tag := "8.0",
      env := [("MYSQL_DATABASE", "gosoline"), ("MYSQL_USER", "gosoline"),
              ("MYSQL_PASSWORD", "gosoline"), ("MYSQL_ROOT_PASSWORD", "gosoline"),
              ("MYSQL_ROOT_HOST", "%")],
      cmd := ["--sql_mode=NO_ENGINE_SUBSTITUTION", "--log-bin-trust-function-creators=TRUE",
              "--max_connections=1000"],
      portBindings := [("main", { containerPort := 3306, hostPort := 0, protocol := "tcp" })] }),
   ("redis",
    { repository := "redis", tag := "7-alpine", env := [], cmd := [],
      portBindings := [("main", { containerPort := 6379, hostPort := 0, protocol := "tcp" })] }),
   ("s3",
    { repository := "minio/minio", tag := "RELEASE.2024-02-17T01-15-57Z",
      env := [("MINIO_ACCESS_KEY", "gosoline"), ("MINIO_SECRET_KEY", "gosoline")],
      cmd := ["server", "/data"],
      portBindings := [("main", { containerPort := 6379, hostPort := 0, protocol := "tcp" })] }),
   ("wiremock",
    { repository := "wiremock/wiremock", tag := "3.4.1", env := [],
      cmd := ["--local-response-templating"],
      portBindings := [("main", { containerPort := 8080, hostPort := 0, protocol := "tcp" })] })]

/-- Spawn count fresh idle pairs of one warm-up shape, threading the uid
counter; the first failure aborts with the warm-up wrapping. -/
def spawnN (uidGen : Nat → String) (now : Nat) (input : SpawnInput) :
    Nat → Nat → Cluster → Except String (Nat × Cluster)
  | idx, 0, c => Except.ok (idx, c)
  | idx, Nat.succ k, c =>
    match spawnDeployment (uidGen idx) now input c with
    | Except.error e => Except.error ("could not spawn warm up deployment: " ++ e)
    | Except.ok (_, c') => spawnN uidGen now input (idx + 1) k c'

/-- WarmUp body: for each requested component type look up the built-in spec;
unknown types are logged and skipped; known types spawn count fresh idle
pairs with container name main. -/
def WarmUpGo (uidGen : Nat → String) (now : Nat) (poolId : String) :
    Nat → List (String × Nat) → Cluster → Except String Cluster
  | _, [], c => Except.ok c
  | idx, (componentType, count) :: rest, c =>
    match specs.lookup componentType with
    | none => WarmUpGo uidGen now poolId idx rest c
    | some spec =>
      match spawnN uidGen now
          { poolId := poolId, componentType := componentType,
            containerName := "main", spec := spec } idx count c with
      | Except.error e => Except.error e
      | Except.ok (idx', c') => WarmUpGo uidGen now poolId idx' rest c'

def WarmUp (uidGen : Nat → String) (now : Nat) (input : WarmUpInput)
    (c : Cluster) : Except String Cluster :=
  WarmUpGo uidGen now input.poolId 0 input.components c

/-! ## The expiry sweep (expireObjects and ExpireServices, src/unnamed/part_002) -/

/-- expireObjects over one listed object sequence: skip objects lacking the
expire-after annotation; an unparseable annotation aborts; a deadline still
in the future keeps the object; otherwise delete it (a delete failure
aborts).  Returns the surviving objects. -/
def expireObjects (now : Nat) (deleteFails : String → Bool) :
    List KObject → Except String (List KObject)
  | [] => Except.ok []
  | o :: rest =>
    match aget o.annotations AnnotationExpireAfter with
    | none => (expireObjects now deleteFails rest).map fun l => o :: l
    | some (AnnVal.raw _) => Except.error "could not parse annotation expire after"
    | some (AnnVal.time t) =>
      if now < t then (expireObjects now deleteFails rest).map fun l => o :: l
      else if deleteFails o.name then Except.error "could not delete service"
      else expireObjects now deleteFails rest

/-- ExpireServices: one full sweep, deployments first (listed with an empty
selector), then services; each phase wraps its failure.  The registry pruning
that follows touches only the in-process pool map, not the cluster. -/
def ExpireServices (f : Faults) (now : Nat) (c : Cluster) : Except String Cluster :=
  if f.listDeploymentsFails then Except.error "could not expire deployments: failed to list services"
  else
    match expireObjects now f.deploymentDeleteFails c.deployments with
    | Except.error e => Except.error ("could not expire deployments: " ++ e)
    | Except.ok ds =>
      if f.listServicesFails then Except.error "could not expire services: failed to list services"
      else
        match expireObjects now f.serviceDeleteFails c.services with
        | Except.error e => Except.error ("could not expire services: " ++ e)
        | Except.ok ss => Except.ok { deployments := ds, services := ss }

/-! ## The operations as a single step relation (for invariant claims) -/

inductive PoolOp where
  | warmUp (uidGen : Nat → String) (now : Nat) (input : WarmUpInput)
  | claim (f : Faults) (poolId : String) (uid : String) (now : Nat) (input : RunInput)
  | extend (f : Faults) (now : Nat) (input : ExtendInput)
  | release (f : Faults) (labels : List (String × String))
  | expire (f : Faults) (now : Nat)

/-- Run one pool operation to its final cluster; a claim panic is folded into
the error case (the process dies, the cluster keeps its pre-call state). -/
def runPoolOp (c : Cluster) : PoolOp → Except String Cluster
  | PoolOp.warmUp uidGen now input => WarmUp uidGen now input c
  | PoolOp.claim f poolId uid now input =>
    match ClaimService f poolId uid now input c with
    | GoResult.ok (_, c') => Except.ok c'
    | GoResult.err e => Except.error e
    | GoResult.panicked e => Except.error e
  | PoolOp.extend f now input => ExtendServices f now input c
  | PoolOp.release f labels => ReleaseServices f labels c
  | PoolOp.expire f now => ExpireServices f now c

/-! ## Helper lemmas -/

theorem aget_factory_labels (pid uid ct cn : String) :
    aget [(LabelPoolId, pid), (LableUid, uid), (LabelComponentType, ct),
          (LabelContainerName, cn), (LableIdle, "true")] LableIdle = some "true" ∧
    aget [(LabelPoolId, pid), (LableUid, uid), (LabelComponentType, ct),
          (LabelContainerName, cn), (LableIdle, "true")] LabelTestId = none ∧
    aget [(LabelPoolId, pid), (LableUid, uid), (LabelComponentType, ct),
          (LabelContainerName, cn), (LableIdle, "true")] LabelComponentName = none ∧
    aget [(LabelPoolId, pid), (LableUid, uid), (LabelComponentType, ct),
          (LabelContainerName, cn), (LableIdle, "true")] LabelPoolId = some pid := by
  refine ⟨?_, ?_, ?_, ?_⟩ <;>
    simp [aget, LabelPoolId, LableUid, LabelComponentType, LabelContainerName,
          LableIdle, LabelTestId, LabelComponentName]

/-- Successful spawn characterized: the server-stamped factory deployment and
service are appended, and neither name was taken. -/
theorem spawnDeployment_ok (uid : String) (now : Nat) (input : SpawnInput)
    (c : Cluster) (d₀ : KObject) (c₁ : Cluster)
    (h : spawnDeployment uid now input c = Except.ok (d₀, c₁)) :
    d₀ = { ApplicationFactory.CreateDeployment uid input now with creationTimestamp := now } ∧
    c₁.deployments = c.deployments ++ [d₀] ∧
    c₁.services = c.services ++
      [{ ApplicationFactory.CreateService uid input now with creationTimestamp := now }] ∧
    (c.deployments.any fun o => o.name = (ApplicationFactory.CreateDeployment uid input now).name) = false ∧
    (c.services.any fun o => o.name = (ApplicationFactory.CreateService uid input now).name) = false := by
  unfold spawnDeployment at h
  split at h
  · exact absurd h (by simp)
  · rename_i d c₂ hcd
    split at h
    · exact absurd h (by simp)
    · rename_i s c₃ hcs
      simp only [Except.ok.injEq, Prod.mk.injEq] at h
      obtain ⟨rfl, rfl⟩ := h
      unfold K8sClient.CreateDeployment at hcd
      by_cases hd : (c.deployments.any fun o => o.name = (ApplicationFactory.CreateDeployment uid input now).name) = true
      · rw [if_pos hd] at hcd
        exact absurd hcd (by simp)
      · rw [if_neg hd] at hcd
        simp only [Except.ok.injEq, Prod.mk.injEq] at hcd
        obtain ⟨rfl, rfl⟩ := hcd
        unfold K8sClient.CreateService at hcs
        by_cases hsvc : (c.services.any fun o => o.name = (ApplicationFactory.CreateService uid input now).name) = true
        · rw [if_pos hsvc] at hcs
          exact absurd hcs (by simp)
        · rw [if_neg hsvc] at hcs
          simp only [Except.ok.injEq, Prod.mk.injEq] at hcs
          obtain ⟨-, rfl⟩ := hcs
          refine ⟨rfl, rfl, rfl, by simpa using hd, by simpa using hsvc⟩

/-- Effect of the claim patch document on the target object: idle removed,
test-id and component-name added with the raw input values, the deadline
annotation upserted.  Succeeds exactly when the idle label was present. -/
theorem applyPatchOps_claimOps (d d' : KObject) (i : RunInput) (now : Nat)
    (h : applyPatchOps d (claimOps i now) = some d') :
    d'.name = d.name ∧
    d'.labels = aset (aset (aremove d.labels LableIdle) LabelTestId i.testId)
      LabelComponentName i.componentName ∧
    d'.annotations = aset d.annotations AnnotationExpireAfter
      (AnnVal.time (now + i.expireAfter)) ∧
    d'.creationTimestamp = d.creationTimestamp := by
  by_cases hidle : (aget d.labels LableIdle).isSome = true
  · simp only [claimOps, applyPatchOps, applyPatchOp, hidle, if_pos, Option.some.injEq] at h
    subst h
    exact ⟨rfl, rfl, rfl, rfl⟩
  · simp only [claimOps, applyPatchOps, applyPatchOp, hidle, if_neg, Bool.false_eq_true,
      reduceIte] at h
    exact absurd h (by simp)

/-- The claim patch leaves the patched object without an idle label and with
the raw test-id and component-name values. -/
theorem claimOps_result_labels (d d' : KObject) (i : RunInput) (now : Nat)
    (h : applyPatchOps d (claimOps i now) = some d') :
    aget d'.labels LableIdle = none ∧
    aget d'.labels LabelTestId = some i.testId ∧
    aget d'.labels LabelComponentName = some i.componentName := by
  obtain ⟨-, hl, -, -⟩ := applyPatchOps_claimOps d d' i now h
  rw [hl]
  refine ⟨?_, ?_, ?_⟩
  · rw [aget_aset_ne _ _ _ _ (by decide), aget_aset_ne _ _ _ _ (by decide),
      aget_aremove_self]
  · rw [aget_aset_ne _ _ _ _ (by decide), aget_aset_self]
  · rw [aget_aset_self]

theorem sanitizeChars_p_cons (l : List Char) :
    sanitizeChars ('p' :: l) = 'p' :: collapseGo false (l.map goLowerChar) := rfl

theorem factory_name_data (s₂ s₃ s₄ s₅ : String) :
    (K8sNameString ["p", s₂, s₃, s₄, s₅]).data =
      'p' :: collapseGo false (("-" ++ joinDash [s₂, s₃, s₄, s₅]).data.map goLowerChar) := rfl

/-- C8: the sanitizer K8sNameString is idempotent, and every object name the
factory produces (from "p", the pool id, the uid, the component type and the
container name) is a fixed point of it, is non-empty, and consists only of
characters from [a-z0-9-]. -/
theorem sanitizer_idempotent_factory_names_canonical :
    (∀ strs : List String, K8sNameString [K8sNameString strs] = K8sNameString strs) ∧
    (∀ (uid : String) (input : SpawnInput) (now : Nat),
      (ApplicationFactory.CreateDeployment uid input now).name =
        K8sNameString ["p", input.poolId, uid, input.componentType, input.containerName] ∧
      (ApplicationFactory.CreateService uid input now).name =
        K8sNameString ["p", input.poolId, uid, input.componentType, input.containerName] ∧
      K8sNameString [(ApplicationFactory.CreateDeployment uid input now).name] =
        (ApplicationFactory.CreateDeployment uid input now).name ∧
      (ApplicationFactory.CreateDeployment uid input now).name ≠ "" ∧
      (∀ ch ∈ (ApplicationFactory.CreateDeployment uid input now).name.data,
        isK8sNameChar ch = true)) := by
  refine ⟨K8sNameString_idem, fun uid input now => ⟨rfl, rfl, K8sNameString_idem _, ?_, ?_⟩⟩
  · intro hemp
    have hdat := congrArg String.data hemp
    rw [show (ApplicationFactory.CreateDeployment uid input now).name =
        K8sNameString ["p", input.poolId, uid, input.componentType, input.containerName] from rfl,
      factory_name_data] at hdat
    exact absurd hdat (by simp)
  · intro ch hch
    exact sanitizeChars_valid _ ch hch

/-- C10: claimDeployment writes the test-id label value exactly as given in
the RunInput, while the stop and extend selectors carry the sanitized value;
the two agree exactly when the test id is a fixed point of the sanitizer. -/
theorem testid_written_raw_selectors_sanitized (i : RunInput) (now dur : Nat)
    (d d' : KObject) (h : applyPatchOps d (claimOps i now) = some d') :
    aget d'.labels LabelTestId = some i.testId ∧
    aget (StopInput.GetLabels { poolId := i.poolId, testId := i.testId }) LabelTestId =
      some (K8sNameString [i.testId]) ∧
    aget (ExtendInput.GetLabels { poolId := i.poolId, testId := i.testId, duration := dur })
      LabelTestId = some (K8sNameString [i.testId]) ∧
    (aget d'.labels LabelTestId =
        aget (StopInput.GetLabels { poolId := i.poolId, testId := i.testId }) LabelTestId ↔
      i.testId = K8sNameString [i.testId]) := by
  obtain ⟨-, hT, -⟩ := claimOps_result_labels d d' i now h
  have hstop : aget (StopInput.GetLabels { poolId := i.poolId, testId := i.testId })
      LabelTestId = some (K8sNameString [i.testId]) := by
    simp [StopInput.GetLabels, aget, LabelPoolId, LabelTestId]
  have hext : aget (ExtendInput.GetLabels
      { poolId := i.poolId, testId := i.testId, duration := dur }) LabelTestId =
      some (K8sNameString [i.testId]) := by
    simp [ExtendInput.GetLabels, aget, LabelPoolId, LabelTestId]
  refine ⟨hT, hstop, hext, ?_⟩
  rw [hT, hstop]
  constructor
  · intro hh
    exact Option.some.inj hh
  · intro hh
    rw [← hh]

/-- Warm-up only acts on the component entries whose type is in the built-in
catalog: filtering the unknown entries out changes nothing. -/
theorem warmUpGo_filter_known (uidGen : Nat → String) (now : Nat) (poolId : String) :
    ∀ (comps : List (String × Nat)) (idx : Nat) (c : Cluster),
      WarmUpGo uidGen now poolId idx comps c =
        WarmUpGo uidGen now poolId idx
          (comps.filter fun p => (specs.lookup p.1).isSome) c := by
  intro comps
  induction comps with
  | nil =>
    intro idx c
    rfl
  | cons hd rest ih =>
    intro idx c
    obtain ⟨t, n⟩ := hd
    cases hspec : specs.lookup t with
    | none =>
      rw [List.filter_cons]
      simp only [hspec, Option.isSome_none, Bool.false_eq_true, reduceIte]
      simp only [WarmUpGo, hspec]
      exact ih idx c
    | some spec =>
      rw [List.filter_cons]
      simp only [hspec, Option.isSome_some, reduceIte]
      simp only [WarmUpGo, hspec]
      cases hsp : spawnN uidGen now
          { poolId := poolId, componentType := t, containerName := "main", spec := spec }
          idx n c with
      | error e => rfl
      | ok p => exact ih p.1 p.2

/-- C9: a WarmUp input containing a component type absent from the built-in
catalog behaves exactly as if that entry were not there: no workload or
service is created for it and no error arises from it; in particular a
request of only unknown types succeeds and leaves the cluster unchanged. -/
theorem warmup_skips_unknown_types (uidGen : Nat → String) (now : Nat)
    (input : WarmUpInput) (c : Cluster) :
    WarmUp uidGen now input c =
      WarmUp uidGen now
        { poolId := input.poolId,
          components := input.components.filter fun p => (specs.lookup p.1).isSome } c ∧
    ((∀ p ∈ input.components, specs.lookup p.1 = none) →
      WarmUp uidGen now input c = Except.ok c) := by
  constructor
  · exact warmUpGo_filter_known uidGen now input.poolId input.components 0 c
  · intro hall
    have hnil : input.components.filter (fun p => (specs.lookup p.1).isSome) = [] := by
      rw [List.filter_eq_nil_iff]
      intro p hp
      simp [hall p hp]
    unfold WarmUp
    rw [warmUpGo_filter_known uidGen now input.poolId input.components 0 c, hnil]
    rfl

theorem find?_singleton_pos {α : Type} (p : α → Bool) (a : α) (h : p a = true) :
    List.find? p [a] = some a := by
  simp [List.find?, h]

/-- C2: for every spawn input and fresh uid, CreateDeployment and
CreateService produce a workload and a service with the same object name,
sanitize of ("p", pool id, uid, component type, container name); hence after
a successful spawn the paired service is retrievable by GetService applied
to the workload name. -/
theorem factory_names_pair_and_service_retrievable (uid : String)
    (input : SpawnInput) (now : Nat) (c : Cluster) (d₀ : KObject) (c₁ : Cluster)
    (h : spawnDeployment uid now input c = Except.ok (d₀, c₁)) :
    (ApplicationFactory.CreateDeployment uid input now).name =
      K8sNameString ["p", input.poolId, uid, input.componentType, input.containerName] ∧
    (ApplicationFactory.CreateService uid input now).name =
      K8sNameString ["p", input.poolId, uid, input.componentType, input.containerName] ∧
    d₀.name = (ApplicationFactory.CreateService uid input now).name ∧
    K8sClient.GetService c₁ d₀.name =
      Except.ok { ApplicationFactory.CreateService uid input now with
        creationTimestamp := now } := by
  obtain ⟨hd0, hdep, hsvcs, hd, hs⟩ := spawnDeployment_ok uid now input c d₀ c₁ h
  have hname : d₀.name = (ApplicationFactory.CreateService uid input now).name := by
    rw [hd0]
    rfl
  refine ⟨rfl, rfl, hname, ?_⟩
  unfold K8sClient.GetService
  rw [hsvcs, List.find?_append]
  have hnone : (c.services.find? fun o => o.name = d₀.name) = none := by
    rw [List.find?_eq_none]
    intro o ho hcontra
    have h2 : ¬(o.name = (ApplicationFactory.CreateService uid input now).name) :=
      fun hp => (List.any_eq_false.mp hs o ho) (decide_eq_true hp)
    exact h2 (hname ▸ of_decide_eq_true hcontra)
  rw [hnone]
  simp only [Option.none_orElse]
  rw [find?_singleton_pos (fun (o : KObject) => o.name = d₀.name)
    ({ ApplicationFactory.CreateService uid input now with
      creationTimestamp := now } : KObject)
    (decide_eq_true (by rw [hd0]; rfl))]
  rfl

/-- An object survives the sweep at time now when it lacks the expire-after
annotation or its deadline is still in the future. -/
def survivesSweep (now : Nat) (o : KObject) : Bool :=
  match aget o.annotations AnnotationExpireAfter with
  | none => true
  | some (AnnVal.time t) => decide (now < t)
  | some (AnnVal.raw _) => true

/-- The expire-after annotation is present but unparseable. -/
def rawExpire (o : KObject) : Bool :=
  match aget o.annotations AnnotationExpireAfter with
  | some (AnnVal.raw _) => true
  | _ => false

theorem expireObjects_ok (now : Nat) (df : String → Bool)
    (hdf : ∀ n, df n = false) :
    ∀ objs : List KObject,
      (∀ o ∈ objs, rawExpire o = false) →
      expireObjects now df objs = Except.ok (objs.filter (survivesSweep now)) := by
  intro objs
  induction objs with
  | nil =>
    intro _
    rfl
  | cons o rest ih =>
    intro hp
    have hrest := fun o' ho' => hp o' (List.mem_cons_of_mem _ ho')
    rw [List.filter_cons]
    cases hann : aget o.annotations AnnotationExpireAfter with
    | none =>
      simp only [expireObjects, hann, ih hrest, survivesSweep, Except.map, reduceIte]
    | some v =>
      cases v with
      | raw s =>
        have hro := hp o (List.mem_cons_self o rest)
        simp [rawExpire, hann] at hro
      | time t =>
        by_cases hlt : now < t
        · simp only [expireObjects, hann, if_pos hlt, ih hrest, survivesSweep,
            decide_eq_true hlt, Except.map, reduceIte]
        · simp only [expireObjects, hann, if_neg hlt, hdf o.name, Bool.false_eq_true,
            reduceIte, ih hrest, survivesSweep, decide_eq_false hlt]

theorem expireObjects_raw_error (now : Nat) :
    ∀ (objs : List KObject) (df : String → Bool) (o : KObject), o ∈ objs →
      rawExpire o = true →
      ∃ e, expireObjects now df objs = Except.error e := by
  intro objs
  induction objs with
  | nil =>
    intro df o ho
    exact absurd ho (List.not_mem_nil o)
  | cons o' rest ih =>
    intro df o ho hraw
    cases hann : aget o'.annotations AnnotationExpireAfter with
    | none =>
      rcases List.mem_cons.mp ho with rfl | ho
      · simp [rawExpire, hann] at hraw
      · obtain ⟨e, he⟩ := ih df o ho hraw
        refine ⟨e, ?_⟩
        simp only [expireObjects, hann, he, Except.map]
    | some v =>
      cases v with
      | raw s' =>
        refine ⟨"could not parse annotation expire after", ?_⟩
        simp only [expireObjects, hann]
      | time t =>
        by_cases hlt : now < t
        · rcases List.mem_cons.mp ho with rfl | ho
          · simp [rawExpire, hann] at hraw
          · obtain ⟨e, he⟩ := ih df o ho hraw
            refine ⟨e, ?_⟩
            simp only [expireObjects, hann, if_pos hlt, he, Except.map]
        · by_cases hdel : df o'.name = true
          · refine ⟨"could not delete service", ?_⟩
            simp only [expireObjects, hann, if_neg hlt, hdel, reduceIte]
          · rcases List.mem_cons.mp ho with rfl | ho
            · simp [rawExpire, hann] at hraw
            · obtain ⟨e, he⟩ := ih df o ho hraw
              refine ⟨e, ?_⟩
              simp only [expireObjects, hann, if_neg hlt, he]
              rw [if_neg hdel]

theorem expireObjects_delete_error (now : Nat) :
    ∀ (objs : List KObject) (df : String → Bool) (o : KObject), o ∈ objs →
      (∀ o' ∈ objs, rawExpire o' = false) →
      survivesSweep now o = false → df o.name = true →
      ∃ e, expireObjects now df objs = Except.error e := by
  intro objs
  induction objs with
  | nil =>
    intro df o ho
    exact absurd ho (List.not_mem_nil o)
  | cons o' rest ih =>
    intro df o ho hp hsur hdfo
    have hrest := fun o'' ho'' => hp o'' (List.mem_cons_of_mem _ ho'')
    cases hann : aget o'.annotations AnnotationExpireAfter with
    | none =>
      rcases List.mem_cons.mp ho with rfl | ho
      · rw [survivesSweep, hann] at hsur
        exact absurd hsur (by simp)
      · obtain ⟨e, he⟩ := ih df o ho hrest hsur hdfo
        refine ⟨e, ?_⟩
        simp only [expireObjects, hann, he, Except.map]
    | some v =>
      cases v with
      | raw s' =>
        have hro := hp o' (List.mem_cons_self o' rest)
        simp [rawExpire, hann] at hro
      | time t =>
        by_cases hlt : now < t
        · rcases List.mem_cons.mp ho with rfl | ho
          · rw [survivesSweep, hann] at hsur
            simp [decide_eq_true hlt] at hsur
          · obtain ⟨e, he⟩ := ih df o ho hrest hsur hdfo
            refine ⟨e, ?_⟩
            simp only [expireObjects, hann, if_pos hlt, he, Except.map]
        · by_cases hdel : df o'.name = true
          · refine ⟨"could not delete service", ?_⟩
            simp only [expireObjects, hann, if_neg hlt, hdel, reduceIte]
          · rcases List.mem_cons.mp ho with rfl | ho
            · exact absurd hdfo hdel
            · obtain ⟨e, he⟩ := ih df o ho hrest hsur hdfo
              refine ⟨e, ?_⟩
              simp only [expireObjects, hann, if_neg hlt, he]
              rw [if_neg hdel]

/-- C3: one full sweep, with every annotation parseable and every delete
succeeding, removes exactly the objects whose expire-after deadline is at or
before now; objects lacking the annotation are retained; and in any phase an
unparseable annotation or a failing delete aborts with an error. -/
theorem expire_sweep_exact (f : Faults) (now : Nat) (c : Cluster)
    (hld : f.listDeploymentsFails = false) (hls : f.listServicesFails = false)
    (hdd : ∀ n, f.deploymentDeleteFails n = false)
    (hsd : ∀ n, f.serviceDeleteFails n = false)
    (hparse : ∀ o ∈ c.deployments ++ c.services, rawExpire o = false) :
    ExpireServices f now c =
      Except.ok { deployments := c.deployments.filter (survivesSweep now),
                  services := c.services.filter (survivesSweep now) } ∧
    (∀ (objs : List KObject) (df : String → Bool) (o : KObject), o ∈ objs →
      rawExpire o = true →
      ∃ e, expireObjects now df objs = Except.error e) ∧
    (∀ (objs : List KObject) (df : String → Bool) (o : KObject), o ∈ objs →
      (∀ o' ∈ objs, rawExpire o' = false) →
      survivesSweep now o = false → df o.name = true →
      ∃ e, expireObjects now df objs = Except.error e) := by
  refine ⟨?_, expireObjects_raw_error now, expireObjects_delete_error now⟩
  have hpd := fun o ho => hparse o (List.mem_append_left _ ho)
  have hps := fun o ho => hparse o (List.mem_append_right _ ho)
  unfold ExpireServices
  rw [hld, if_neg (by simp), expireObjects_ok now f.deploymentDeleteFails hdd c.deployments hpd,
    hls]
  simp only [Bool.false_eq_true, reduceIte]
  rw [expireObjects_ok now f.serviceDeleteFails hsd c.services hps]

/-- C6 (documenting the divergence): when the speculative spawn succeeds but
the idle listing fails, ClaimService returns the wrapped error; but when the
listing succeeds and comes back empty, ClaimService indexes the empty sorted
slice and panics instead of returning an error.  A pool id that the
sanitizer does not fix (here "PA") makes the raw listing selector miss the
freshly spawned workload, so the empty case is reachable. -/
theorem claimservice_panics_on_empty_idle_list :
    ClaimService noFaults "PA" "abcd1234" 1000
      { poolId := "PA", testId := "t1", testName := "", componentType := "redis",
        componentName := "cache", containerName := "main",
        spec := { repository := "redis", tag := "7-alpine", env := [], cmd := [],
                  portBindings := [] },
        expireAfter := 600 }
      { deployments := [], services := [] } =
      GoResult.panicked "runtime error: index out of range [0] with length 0" ∧
    ClaimService
      { noFaults with listDeploymentsFails := true } "pa" "abcd1234" 1000
      { poolId := "pa", testId := "t1", testName := "", componentType := "redis",
        componentName := "cache", containerName := "main",
        spec := { repository := "redis", tag := "7-alpine", env := [], cmd := [],
                  portBindings := [] },
        expireAfter := 600 }
      { deployments := [], services := [] } =
      GoResult.err "failed to list deployments: could not list deployments" := by
  exact ⟨rfl, rfl⟩

/-- C5 counterexample: with test id "T1" (not a fixed point of the
sanitizer), a successful claim followed by a release with the same pool id
and test id leaves the workload and the service still carrying the test-id
label value "T1": the claim writes the raw value while the release selector
carries the sanitized "t1", so nothing matches the delete listing. -/
theorem claim_release_retains_unsanitized_testid :
    (match ClaimService noFaults "pa" "abcd1234" 1000
        { poolId := "pa", testId := "T1", testName := "", componentType := "redis",
          componentName := "cache", containerName := "main",
          spec := { repository := "redis", tag := "7-alpine", env := [], cmd := [],
                    portBindings := [] },
          expireAfter := 600 }
        { deployments := [], services := [] } with
     | GoResult.ok (_, c₂) =>
       match ReleaseServices noFaults
           (StopInput.GetLabels { poolId := "pa", testId := "T1" }) c₂ with
       | Except.ok c₃ =>
         (c₃.deployments.any fun o => aget o.labels LabelTestId = some "T1") &&
         (c₃.services.any fun o => aget o.labels LabelTestId = some "T1")
       | _ => false
     | _ => false) = true := by
  rfl

theorem deleteDeployments_noFaults (listed : List KObject) :
    ∀ c : Cluster, ∃ c', deleteDeployments noFaults listed c = Except.ok c' ∧
      c'.deployments = c.deployments.filter
        (fun o => !((listed.map KObject.name).contains o.name)) ∧
      c'.services = c.services := by
  induction listed with
  | nil =>
    intro c
    refine ⟨c, rfl, ?_, rfl⟩
    rw [eq_comm, List.filter_eq_self]
    intro o _
    simp
  | cons d rest ih =>
    intro c
    obtain ⟨c', hrun, hdeps, hsvcs⟩ :=
      ih { deployments := c.deployments.filter fun o => o.name ≠ d.name,
           services := c.services }
    refine ⟨c', ?_, ?_, hsvcs⟩
    · simp only [deleteDeployments, K8sClient.DeleteDeployment, noFaults,
        Bool.false_eq_true, reduceIte]
      exact hrun
    · rw [hdeps]
      simp only [List.filter_filter]
      apply List.filter_congr
      intro o _
      by_cases hn : o.name = d.name
      · simp [hn]
      · simp [hn]

theorem deleteServices_noFaults (listed : List KObject) :
    ∀ c : Cluster, ∃ c', deleteServices noFaults listed c = Except.ok c' ∧
      c'.services = c.services.filter
        (fun o => !((listed.map KObject.name).contains o.name)) ∧
      c'.deployments = c.deployments := by
  induction listed with
  | nil =>
    intro c
    refine ⟨c, rfl, ?_, rfl⟩
    rw [eq_comm, List.filter_eq_self]
    intro o _
    simp
  | cons d rest ih =>
    intro c
    obtain ⟨c', hrun, hsvcs, hdeps⟩ :=
      ih { deployments := c.deployments,
           services := c.services.filter fun o => o.name ≠ d.name }
    refine ⟨c', ?_, ?_, hdeps⟩
    · simp only [deleteServices, K8sClient.DeleteService, noFaults,
        Bool.false_eq_true, reduceIte]
      exact hrun
    · rw [hsvcs]
      simp only [List.filter_filter]
      apply List.filter_congr
      intro o _
      by_cases hn : o.name = d.name
      · simp [hn]
      · simp [hn]

/-- A fault-free release leaves no object matching the release selector, and
never adds objects. -/
theorem ReleaseServices_clears (labels : List (String × String)) (c c' : Cluster)
    (h : ReleaseServices noFaults labels c = Except.ok c') :
    (∀ o ∈ c'.deployments, matchesSelector labels o = false) ∧
    (∀ o ∈ c'.services, matchesSelector labels o = false) ∧
    (∀ o ∈ c'.deployments, o ∈ c.deployments) ∧
    (∀ o ∈ c'.services, o ∈ c.services) := by
  unfold ReleaseServices K8sClient.ListDeployments K8sClient.ListServices at h
  simp only [show noFaults.listDeploymentsFails = false from rfl,
    show noFaults.listServicesFails = false from rfl, Bool.false_eq_true, reduceIte] at h
  split at h
  · exact absurd h (by simp)
  rename_i c₁ hdel₁x
  split at h
  · exact absurd h (by simp)
  rename_i c₂ hdel₂x
  simp only [Except.ok.injEq] at h
  subst h
  obtain ⟨c₁', hdel₁, hdeps₁, hsvcs₁⟩ :=
    deleteDeployments_noFaults (c.deployments.filter (matchesSelector labels)) c
  rw [hdel₁x] at hdel₁
  simp only [Except.ok.injEq] at hdel₁
  subst hdel₁
  obtain ⟨c₂', hdel₂, hsvcs₂, hdeps₂⟩ :=
    deleteServices_noFaults (c₁.services.filter (matchesSelector labels)) c₁
  rw [hdel₂x] at hdel₂
  simp only [Except.ok.injEq] at hdel₂
  subst hdel₂
  have hdeps : c₂.deployments = c.deployments.filter
      (fun o => !(((c.deployments.filter (matchesSelector labels)).map KObject.name).contains o.name)) := by
    rw [hdeps₂, hdeps₁]
  have hsvcs : c₂.services = c.services.filter
      (fun o => !(((c.services.filter (matchesSelector labels)).map KObject.name).contains o.name)) := by
    rw [hsvcs₂, hsvcs₁]
  refine ⟨?_, ?_, ?_, ?_⟩
  · intro o ho
    rw [hdeps] at ho
    obtain ⟨hmem, hpass⟩ := List.mem_filter.mp ho
    by_contra hmatch
    have hmatch' : matchesSelector labels o = true := by
      cases hmm : matchesSelector labels o
      · exact absurd hmm hmatch
      · rfl
    have : o.name ∈ (c.deployments.filter (matchesSelector labels)).map KObject.name :=
      List.mem_map_of_mem _ (List.mem_filter.mpr ⟨hmem, hmatch'⟩)
    simp only [Bool.not_eq_true'] at hpass
    have hcontra := List.elem_iff.mpr this
    simp only [List.contains] at hpass
    rw [hcontra] at hpass
    exact absurd hpass (by simp)
  · intro o ho
    rw [hsvcs] at ho
    obtain ⟨hmem, hpass⟩ := List.mem_filter.mp ho
    by_contra hmatch
    have hmatch' : matchesSelector labels o = true := by
      cases hmm : matchesSelector labels o
      · exact absurd hmm hmatch
      · rfl
    have : o.name ∈ (c.services.filter (matchesSelector labels)).map KObject.name := by
      apply List.mem_map_of_mem
      apply List.mem_filter.mpr
      exact ⟨hmem, hmatch'⟩
    simp only [Bool.not_eq_true'] at hpass
    have hcontra := List.elem_iff.mpr this
    simp only [List.contains] at hpass
    rw [hcontra] at hpass
    exact absurd hpass (by simp)
  · intro o ho
    rw [hdeps] at ho
    exact (List.mem_filter.mp ho).1
  · intro o ho
    rw [hsvcs] at ho
    exact (List.mem_filter.mp ho).1

/-- C5 (amended): when the test id is a fixed point of the sanitizer, a
successful ClaimService followed by a fault-free ReleaseServices with the
same pool id and test id leaves the pool with no workload and no service
carrying that test-id: no object keeps both the pool-id label of this pool
and the test-id label value of this run. -/
theorem claim_release_roundtrip_fixedpoint (input : RunInput) (uid : String)
    (now : Nat) (c c₂ c₃ : Cluster) (s : KObject)
    (hfix : K8sNameString [input.testId] = input.testId)
    (hclaim : ClaimService noFaults input.poolId uid now input c = GoResult.ok (s, c₂))
    (hrel : ReleaseServices noFaults
      (StopInput.GetLabels { poolId := input.poolId, testId := input.testId }) c₂ =
      Except.ok c₃) :
    (∀ o ∈ c₃.deployments,
      ¬(aget o.labels LabelPoolId = some (K8sNameString [input.poolId]) ∧
        aget o.labels LabelTestId = some input.testId)) ∧
    (∀ o ∈ c₃.services,
      ¬(aget o.labels LabelPoolId = some (K8sNameString [input.poolId]) ∧
        aget o.labels LabelTestId = some input.testId)) := by
  obtain ⟨hdeps, hsvcs, -, -⟩ := ReleaseServices_clears _ c₂ c₃ hrel
  have hmatch : ∀ o : KObject,
      aget o.labels LabelPoolId = some (K8sNameString [input.poolId]) →
      aget o.labels LabelTestId = some input.testId →
      matchesSelector
        (StopInput.GetLabels { poolId := input.poolId, testId := input.testId }) o = true := by
    intro o hpid htid
    simp [matchesSelector, StopInput.GetLabels, hpid, htid, hfix]
  constructor
  · intro o ho hcontra
    obtain ⟨hpid, htid⟩ := hcontra
    have := hdeps o ho
    rw [hmatch o hpid htid] at this
    exact absurd this (by simp)
  · intro o ho hcontra
    obtain ⟨hpid, htid⟩ := hcontra
    have := hsvcs o ho
    rw [hmatch o hpid htid] at this
    exact absurd this (by simp)

/-! ## Idle exclusivity (invariant I3) -/

/-- An idle-labeled object carries neither a test-id nor a component-name. -/
def idleExclusive (o : KObject) : Prop :=
  aget o.labels LableIdle = some "true" →
    aget o.labels LabelTestId = none ∧ aget o.labels LabelComponentName = none

def clusterIdleExclusive (c : Cluster) : Prop :=
  (∀ o ∈ c.deployments, idleExclusive o) ∧ (∀ o ∈ c.services, idleExclusive o)

theorem factory_deployment_idleExclusive (uid : String) (input : SpawnInput)
    (now ts : Nat) :
    idleExclusive { ApplicationFactory.CreateDeployment uid input now with
      creationTimestamp := ts } := by
  intro _
  exact ⟨(aget_factory_labels _ _ _ _).2.1, (aget_factory_labels _ _ _ _).2.2.1⟩

theorem factory_service_idleExclusive (uid : String) (input : SpawnInput)
    (now ts : Nat) :
    idleExclusive { ApplicationFactory.CreateService uid input now with
      creationTimestamp := ts } := by
  intro _
  exact ⟨(aget_factory_labels _ _ _ _).2.1, (aget_factory_labels _ _ _ _).2.2.1⟩

theorem claimOps_idleExclusive (d d' : KObject) (i : RunInput) (now : Nat)
    (h : applyPatchOps d (claimOps i now) = some d') : idleExclusive d' := by
  intro hidle
  rw [(claimOps_result_labels d d' i now h).1] at hidle
  exact absurd hidle (by simp)

theorem applyPatchOps_extendOps_labels (o o' : KObject) (v : AnnVal)
    (h : applyPatchOps o [PatchOp.replaceAnnotation AnnotationExpireAfter v] = some o') :
    o'.labels = o.labels ∧ o'.name = o.name := by
  by_cases hann : (aget o.annotations AnnotationExpireAfter).isSome = true
  · simp only [applyPatchOps, applyPatchOp, hann, if_pos, Option.some.injEq] at h
    subst h
    exact ⟨rfl, rfl⟩
  · simp only [applyPatchOps, applyPatchOp, hann, Bool.false_eq_true, reduceIte] at h
    exact absurd h (by simp)

theorem patchObjectsByName_ok (objs : List KObject) (n : String) (ops : List PatchOp)
    (o' : KObject) (res : List KObject)
    (h : patchObjectsByName objs n ops = Except.ok (o', res)) :
    (∃ o ∈ objs, applyPatchOps o ops = some o') ∧
    res = (objs.map fun p => if p.name = n then o' else p) := by
  unfold patchObjectsByName at h
  split at h
  · exact absurd h (by simp)
  rename_i o hfind
  split at h
  · exact absurd h (by simp)
  rename_i o'' happ
  simp only [Except.ok.injEq, Prod.mk.injEq] at h
  obtain ⟨rfl, rfl⟩ := h
  exact ⟨⟨o, List.mem_of_find?_eq_some hfind, happ⟩, rfl⟩

theorem patchObjectsByName_mem (objs : List KObject) (n : String) (ops : List PatchOp)
    (o' : KObject) (res : List KObject)
    (h : patchObjectsByName objs n ops = Except.ok (o', res)) :
    ∀ q ∈ res, q ∈ objs ∨ q = o' := by
  obtain ⟨-, hres⟩ := patchObjectsByName_ok objs n ops o' res h
  subst hres
  intro q hq
  obtain ⟨p, hp, hpq⟩ := List.mem_map.mp hq
  by_cases hn : p.name = n
  · right
    rw [← hpq, if_pos hn]
  · left
    rw [← hpq, if_neg hn]
    exact hp

theorem patchEach_preserves (P : KObject → Prop) (wrap : String) (ops : List PatchOp)
    (hstep : ∀ o o', P o → applyPatchOps o ops = some o' → P o') :
    ∀ (listed objs objs' : List KObject), (∀ o ∈ objs, P o) →
      patchEach wrap ops listed objs = Except.ok objs' → ∀ o ∈ objs', P o := by
  intro listed
  induction listed with
  | nil =>
    intro objs objs' hall h
    simp only [patchEach, Except.ok.injEq] at h
    subst h
    exact hall
  | cons d rest ih =>
    intro objs objs' hall h
    unfold patchEach at h
    split at h
    · exact absurd h (by simp)
    rename_i q objs₁ hpo
    obtain ⟨⟨o, ho, happ⟩, -⟩ := patchObjectsByName_ok objs d.name ops q objs₁ hpo
    have hq : P q := hstep o q (hall o ho) happ
    have hall₁ : ∀ p ∈ objs₁, P p := by
      intro p hp
      rcases patchObjectsByName_mem objs d.name ops q objs₁ hpo p hp with hmem | rfl
      · exact hall p hmem
      · exact hq
    exact ih objs₁ objs' hall₁ h

theorem deleteDeployments_subset (f : Faults) :
    ∀ (listed : List KObject) (c c' : Cluster),
      deleteDeployments f listed c = Except.ok c' →
      (∀ o ∈ c'.deployments, o ∈ c.deployments) ∧ c'.services = c.services := by
  intro listed
  induction listed with
  | nil =>
    intro c c' h
    simp only [deleteDeployments, Except.ok.injEq] at h
    subst h
    exact ⟨fun o ho => ho, rfl⟩
  | cons d rest ih =>
    intro c c' h
    unfold deleteDeployments K8sClient.DeleteDeployment at h
    split at h
    · exact absurd h (by simp)
    rename_i c₁ heq
    split at heq
    · exact absurd heq (by simp)
    simp only [Except.ok.injEq] at heq
    subst heq
    obtain ⟨hsub, hsvc⟩ := ih _ c' h
    exact ⟨fun o ho => (List.mem_filter.mp (hsub o ho)).1, hsvc⟩

theorem deleteServices_subset (f : Faults) :
    ∀ (listed : List KObject) (c c' : Cluster),
      deleteServices f listed c = Except.ok c' →
      (∀ o ∈ c'.services, o ∈ c.services) ∧ c'.deployments = c.deployments := by
  intro listed
  induction listed with
  | nil =>
    intro c c' h
    simp only [deleteServices, Except.ok.injEq] at h
    subst h
    exact ⟨fun o ho => ho, rfl⟩
  | cons d rest ih =>
    intro c c' h
    unfold deleteServices K8sClient.DeleteService at h
    split at h
    · exact absurd h (by simp)
    rename_i c₁ heq
    split at heq
    · exact absurd heq (by simp)
    simp only [Except.ok.injEq] at heq
    subst heq
    obtain ⟨hsub, hdep⟩ := ih _ c' h
    exact ⟨fun o ho => (List.mem_filter.mp (hsub o ho)).1, hdep⟩

theorem expireObjects_subset (now : Nat) (df : String → Bool) :
    ∀ (objs objs' : List KObject), expireObjects now df objs = Except.ok objs' →
      ∀ o ∈ objs', o ∈ objs := by
  intro objs
  induction objs with
  | nil =>
    intro objs' h
    simp only [expireObjects, Except.ok.injEq] at h
    subst h
    intro o ho
    exact ho
  | cons o rest ih =>
    intro objs' h o' ho'
    unfold expireObjects at h
    split at h
    · cases hrec : expireObjects now df rest with
      | error e =>
        rw [hrec] at h
        exact absurd h (by simp [Except.map])
      | ok l =>
        rw [hrec] at h
        simp only [Except.map, Except.ok.injEq] at h
        subst h
        rcases List.mem_cons.mp ho' with rfl | hmem
        · exact List.mem_cons_self _ _
        · exact List.mem_cons_of_mem _ (ih l hrec o' hmem)
    · exact absurd h (by simp)
    · rename_i t hann
      split at h
      · cases hrec : expireObjects now df rest with
        | error e =>
          rw [hrec] at h
          exact absurd h (by simp [Except.map])
        | ok l =>
          rw [hrec] at h
          simp only [Except.map, Except.ok.injEq] at h
          subst h
          rcases List.mem_cons.mp ho' with rfl | hmem
          · exact List.mem_cons_self _ _
          · exact List.mem_cons_of_mem _ (ih l hrec o' hmem)
      · split at h
        · exact absurd h (by simp)
        · exact List.mem_cons_of_mem _ (ih objs' h o' ho')

theorem spawnDeployment_preserves (uid : String) (now : Nat) (input : SpawnInput)
    (c : Cluster) (d₀ : KObject) (c₁ : Cluster)
    (h : spawnDeployment uid now input c = Except.ok (d₀, c₁))
    (hc : clusterIdleExclusive c) : clusterIdleExclusive c₁ := by
  obtain ⟨-, hdeps, hsvcs, -, -⟩ := spawnDeployment_ok uid now input c d₀ c₁ h
  obtain ⟨hd0, -, -, -, -⟩ := spawnDeployment_ok uid now input c d₀ c₁ h
  constructor
  · intro o ho
    rw [hdeps] at ho
    rcases List.mem_append.mp ho with hmem | hmem
    · exact hc.1 o hmem
    · rw [List.mem_singleton.mp hmem, hd0]
      exact factory_deployment_idleExclusive uid input now now
  · intro o ho
    rw [hsvcs] at ho
    rcases List.mem_append.mp ho with hmem | hmem
    · exact hc.2 o hmem
    · rw [List.mem_singleton.mp hmem]
      exact factory_service_idleExclusive uid input now now

theorem PatchDeployment_ok (c : Cluster) (n : String) (ops : List PatchOp)
    (d' : KObject) (c₁ : Cluster)
    (h : K8sClient.PatchDeployment c n ops = Except.ok (d', c₁)) :
    (∃ o ∈ c.deployments, applyPatchOps o ops = some d') ∧
    c₁.deployments = (c.deployments.map fun p => if p.name = n then d' else p) ∧
    c₁.services = c.services := by
  unfold K8sClient.PatchDeployment at h
  split at h
  · exact absurd h (by simp)
  rename_i q ds hpo
  simp only [Except.ok.injEq, Prod.mk.injEq] at h
  obtain ⟨rfl, rfl⟩ := h
  obtain ⟨hex, hres⟩ := patchObjectsByName_ok c.deployments n ops q ds hpo
  exact ⟨hex, hres, rfl⟩

theorem PatchService_ok (c : Cluster) (n : String) (ops : List PatchOp)
    (s' : KObject) (c₁ : Cluster)
    (h : K8sClient.PatchService c n ops = Except.ok (s', c₁)) :
    (∃ o ∈ c.services, applyPatchOps o ops = some s') ∧
    c₁.services = (c.services.map fun p => if p.name = n then s' else p) ∧
    c₁.deployments = c.deployments := by
  unfold K8sClient.PatchService at h
  split at h
  · exact absurd h (by simp)
  rename_i q ss hpo
  simp only [Except.ok.injEq, Prod.mk.injEq] at h
  obtain ⟨rfl, rfl⟩ := h
  obtain ⟨hex, hres⟩ := patchObjectsByName_ok c.services n ops q ss hpo
  exact ⟨hex, hres, rfl⟩

theorem claimDeployment_preserves (now : Nat) (d : KObject) (input : RunInput)
    (c : Cluster) (s' : KObject) (c₂ : Cluster)
    (h : claimDeployment now d input c = Except.ok (s', c₂))
    (hc : clusterIdleExclusive c) : clusterIdleExclusive c₂ := by
  unfold claimDeployment at h
  split at h
  · exact absurd h (by simp)
  rename_i d' c₁ hpd
  split at h
  · exact absurd h (by simp)
  rename_i s hget
  split at h
  · exact absurd h (by simp)
  rename_i s'' c₂'' hps
  simp only [Except.ok.injEq, Prod.mk.injEq] at h
  obtain ⟨rfl, rfl⟩ := h
  obtain ⟨⟨p, hp, happ⟩, hdeps₁, hsvcs₁⟩ := PatchDeployment_ok c d.name _ d' c₁ hpd
  obtain ⟨⟨p₂, hp₂, happ₂⟩, hsvcs₂, hdeps₂⟩ := PatchService_ok c₁ s.name _ s'' c₂'' hps
  constructor
  · intro o ho
    rw [hdeps₂, hdeps₁] at ho
    obtain ⟨r, hr, hro⟩ := List.mem_map.mp ho
    by_cases hn : r.name = d.name
    · rw [← hro, if_pos hn]
      exact claimOps_idleExclusive p d' input now happ
    · rw [← hro, if_neg hn]
      exact hc.1 r hr
  · intro o ho
    rw [hsvcs₂] at ho
    obtain ⟨r, hr, hro⟩ := List.mem_map.mp ho
    by_cases hn : r.name = s.name
    · rw [← hro, if_pos hn]
      exact claimOps_idleExclusive p₂ s'' input now happ₂
    · rw [← hro, if_neg hn]
      rw [hsvcs₁] at hr
      exact hc.2 r hr

theorem ClaimService_preserves (f : Faults) (poolId uid : String) (now : Nat)
    (input : RunInput) (c : Cluster) (s : KObject) (c₂ : Cluster)
    (h : ClaimService f poolId uid now input c = GoResult.ok (s, c₂))
    (hc : clusterIdleExclusive c) : clusterIdleExclusive c₂ := by
  unfold ClaimService at h
  split at h
  · exact absurd h (by simp)
  rename_i d₀ c₁ hspawn
  have hc₁ := spawnDeployment_preserves uid now input.toSpawnInput c d₀ c₁ hspawn hc
  split at h
  · exact absurd h (by simp)
  rename_i ds hlist
  split at h
  · exact absurd h (by simp)
  rename_i d rest hsort
  split at h
  · exact absurd h (by simp)
  rename_i s' c₂' hclaim
  simp only [GoResult.ok.injEq, Prod.mk.injEq] at h
  obtain ⟨rfl, rfl⟩ := h
  exact claimDeployment_preserves now d input c₁ s' c₂' hclaim hc₁

theorem ExtendServices_preserves (f : Faults) (now : Nat) (input : ExtendInput)
    (c c' : Cluster) (h : ExtendServices f now input c = Except.ok c')
    (hc : clusterIdleExclusive c) : clusterIdleExclusive c' := by
  have hstep : ∀ (o o' : KObject), idleExclusive o →
      applyPatchOps o (extendOps (now + input.duration)) = some o' → idleExclusive o' := by
    intro o o' hP happ
    obtain ⟨hl, -⟩ := applyPatchOps_extendOps_labels o o' _ happ
    unfold idleExclusive
    rw [hl]
    exact hP
  unfold ExtendServices K8sClient.ListDeployments K8sClient.ListServices at h
  by_cases hld : f.listDeploymentsFails = true
  · simp only [hld, reduceIte] at h
    exact absurd h (by simp)
  · simp only [hld, Bool.false_eq_true, reduceIte] at h
    cases hpd : patchEach "could not patch deployment" (extendOps (now + input.duration))
        (List.filter (matchesSelector input.GetLabels) c.deployments) c.deployments with
    | error e =>
      rw [hpd] at h
      simp at h
    | ok ds' =>
      rw [hpd] at h
      by_cases hls : f.listServicesFails = true
      · simp only [hls, reduceIte] at h
        simp at h
      · simp only [hls, Bool.false_eq_true, reduceIte] at h
        cases hps : patchEach "could not patch service" (extendOps (now + input.duration))
            (List.filter (matchesSelector input.GetLabels) c.services) c.services with
        | error e =>
          rw [hps] at h
          simp at h
        | ok ss' =>
          rw [hps] at h
          simp only [Except.ok.injEq] at h
          subst h
          constructor
          · exact patchEach_preserves idleExclusive _ _ hstep _ c.deployments ds' hc.1 hpd
          · exact patchEach_preserves idleExclusive _ _ hstep _ c.services ss' hc.2 hps

theorem ReleaseServices_preserves (f : Faults) (labels : List (String × String))
    (c c' : Cluster) (h : ReleaseServices f labels c = Except.ok c')
    (hc : clusterIdleExclusive c) : clusterIdleExclusive c' := by
  unfold ReleaseServices K8sClient.ListDeployments K8sClient.ListServices at h
  split at h
  · exact absurd h (by simp)
  split at h
  · exact absurd h (by simp)
  rename_i c₁ hdel₁
  obtain ⟨hsub₁, hsvc₁⟩ := deleteDeployments_subset f _ c c₁ hdel₁
  split at h
  · exact absurd h (by simp)
  split at h
  · exact absurd h (by simp)
  rename_i c₂ hdel₂
  obtain ⟨hsub₂, hdep₂⟩ := deleteServices_subset f _ c₁ c₂ hdel₂
  simp only [Except.ok.injEq] at h
  subst h
  constructor
  · intro o ho
    rw [hdep₂] at ho
    exact hc.1 o (hsub₁ o ho)
  · intro o ho
    have := hsub₂ o ho
    rw [hsvc₁] at this
    exact hc.2 o this

theorem ExpireServices_preserves (f : Faults) (now : Nat) (c c' : Cluster)
    (h : ExpireServices f now c = Except.ok c')
    (hc : clusterIdleExclusive c) : clusterIdleExclusive c' := by
  unfold ExpireServices at h
  split at h
  · exact absurd h (by simp)
  split at h
  · exact absurd h (by simp)
  rename_i ds hexd
  split at h
  · exact absurd h (by simp)
  split at h
  · exact absurd h (by simp)
  rename_i ss hexs
  simp only [Except.ok.injEq] at h
  subst h
  constructor
  · intro o ho
    exact hc.1 o (expireObjects_subset now f.deploymentDeleteFails c.deployments ds hexd o ho)
  · intro o ho
    exact hc.2 o (expireObjects_subset now f.serviceDeleteFails c.services ss hexs o ho)

theorem spawnN_preserves (uidGen : Nat → String) (now : Nat) (input : SpawnInput) :
    ∀ (k idx : Nat) (c : Cluster) (idx' : Nat) (c' : Cluster),
      spawnN uidGen now input idx k c = Except.ok (idx', c') →
      clusterIdleExclusive c → clusterIdleExclusive c' := by
  intro k
  induction k with
  | zero =>
    intro idx c idx' c' h hc
    simp only [spawnN, Except.ok.injEq, Prod.mk.injEq] at h
    obtain ⟨-, rfl⟩ := h
    exact hc
  | succ k ih =>
    intro idx c idx' c' h hc
    unfold spawnN at h
    split at h
    · exact absurd h (by simp)
    rename_i d₀ c₁ hspawn
    exact ih (idx + 1) c₁ idx' c' h
      (spawnDeployment_preserves (uidGen idx) now input c d₀ c₁ hspawn hc)

theorem WarmUpGo_preserves (uidGen : Nat → String) (now : Nat) (poolId : String) :
    ∀ (comps : List (String × Nat)) (idx : Nat) (c c' : Cluster),
      WarmUpGo uidGen now poolId idx comps c = Except.ok c' →
      clusterIdleExclusive c → clusterIdleExclusive c' := by
  intro comps
  induction comps with
  | nil =>
    intro idx c c' h hc
    simp only [WarmUpGo, Except.ok.injEq] at h
    subst h
    exact hc
  | cons hd rest ih =>
    intro idx c c' h hc
    obtain ⟨t, n⟩ := hd
    unfold WarmUpGo at h
    split at h
    · exact ih idx c c' h hc
    rename_i spec hspec
    split at h
    · exact absurd h (by simp)
    rename_i idx₁ c₁ hsp
    exact ih idx₁ c₁ c' h
      (spawnN_preserves uidGen now _ n idx c idx₁ c₁ hsp hc)

/-- Run one operation; the final cluster on success. -/
theorem runPoolOp_preserves (op : PoolOp) (c c' : Cluster)
    (h : runPoolOp c op = Except.ok c')
    (hc : clusterIdleExclusive c) : clusterIdleExclusive c' := by
  cases op with
  | warmUp uidGen now input =>
    exact WarmUpGo_preserves uidGen now input.poolId input.components 0 c c' h hc
  | claim f poolId uid now input =>
    simp only [runPoolOp] at h
    split at h
    · rename_i s c₂ hcs
      simp only [Except.ok.injEq] at h
      subst h
      exact ClaimService_preserves f poolId uid now input c s c₂ hcs hc
    · exact absurd h (by simp)
    · exact absurd h (by simp)
  | extend f now input => exact ExtendServices_preserves f now input c c' h hc
  | release f labels => exact ReleaseServices_preserves f labels c c' h hc
  | expire f now => exact ExpireServices_preserves f now c c' h hc

instance : DecidablePred idleExclusive := fun o => by
  unfold idleExclusive
  infer_instance

instance (c : Cluster) : Decidable (clusterIdleExclusive c) := by
  unfold clusterIdleExclusive
  infer_instance

/-- C4: idle exclusivity is an invariant.  Every workload the factory builds
carries idle=true and neither a test-id nor a component-name label; the
single claim patch removes idle and adds both labels; and every pool
operation, run to a successful final cluster, preserves the property that an
idle=true object carries neither label. -/
theorem idle_exclusivity_invariant :
    (∀ (uid : String) (input : SpawnInput) (now : Nat),
      aget (ApplicationFactory.CreateDeployment uid input now).labels LableIdle = some "true" ∧
      aget (ApplicationFactory.CreateDeployment uid input now).labels LabelTestId = none ∧
      aget (ApplicationFactory.CreateDeployment uid input now).labels LabelComponentName = none) ∧
    (∀ (d d' : KObject) (i : RunInput) (now : Nat),
      applyPatchOps d (claimOps i now) = some d' →
      aget d'.labels LableIdle = none ∧
      aget d'.labels LabelTestId = some i.testId ∧
      aget d'.labels LabelComponentName = some i.componentName) ∧
    (∀ (op : PoolOp) (c c' : Cluster), clusterIdleExclusive c →
      runPoolOp c op = Except.ok c' → clusterIdleExclusive c') := by
  refine ⟨?_, ?_, ?_⟩
  · intro uid input now
    exact ⟨(aget_factory_labels _ _ _ _).1, (aget_factory_labels _ _ _ _).2.1,
      (aget_factory_labels _ _ _ _).2.2.1⟩
  · intro d d' i now h
    exact claimOps_result_labels d d' i now h
  · intro op c c' hc h
    exact runPoolOp_preserves op c c' h hc

/-! ## Extend: exact effect on the expire-after deadline -/

def hasExpireAfter (o : KObject) : Bool :=
  (aget o.annotations AnnotationExpireAfter).isSome

def setExpireAfter (o : KObject) (v : Nat) : KObject :=
  { o with annotations := aset o.annotations AnnotationExpireAfter (AnnVal.time v) }

theorem applyPatchOps_extendOps (o : KObject) (v : Nat) :
    applyPatchOps o (extendOps v) =
      if hasExpireAfter o then some (setExpireAfter o v) else none := by
  by_cases h : (aget o.annotations AnnotationExpireAfter).isSome = true
  · simp [extendOps, applyPatchOps, applyPatchOp, hasExpireAfter, setExpireAfter, h]
  · simp [extendOps, applyPatchOps, applyPatchOp, hasExpireAfter, h]

theorem setExpireAfter_name (o : KObject) (v : Nat) :
    (setExpireAfter o v).name = o.name := rfl

theorem setExpireAfter_labels (o : KObject) (v : Nat) :
    (setExpireAfter o v).labels = o.labels := rfl

theorem setExpireAfter_get (o : KObject) (v : Nat) :
    aget (setExpireAfter o v).annotations AnnotationExpireAfter =
      some (AnnVal.time v) := aget_aset_self o.annotations AnnotationExpireAfter _

/-- When the target objects have unique names and every listed object exists
with the annotation present, patching each listed object with the extend
document succeeds and replaces the deadline on exactly the listed names. -/
theorem patchEach_extend (v : Nat) (wrap : String) :
    ∀ (listed objs : List KObject),
      (objs.map KObject.name).Nodup →
      (listed.map KObject.name).Nodup →
      (∀ d ∈ listed, ∃ o ∈ objs, o.name = d.name ∧ hasExpireAfter o = true) →
      patchEach wrap (extendOps v) listed objs =
        Except.ok (objs.map fun o =>
          if o.name ∈ listed.map KObject.name then setExpireAfter o v else o) := by
  intro listed
  induction listed with
  | nil =>
    intro objs _ _ _
    simp only [patchEach, List.map_nil, Except.ok.injEq]
    rw [eq_comm]
    apply map_id_of_mem_eq
    intro o _
    simp
  | cons d rest ih =>
    intro objs hno hnl hsub
    obtain ⟨o₀, ho₀mem, ho₀name, ho₀ea⟩ := hsub d (List.mem_cons_self d rest)
    rw [List.map_cons] at hnl
    have hnlc := List.nodup_cons.mp hnl
    have hfind : ∃ q, objs.find? (fun p => p.name = d.name) = some q := by
      rw [← Option.isSome_iff_exists]
      rw [List.find?_isSome]
      exact ⟨o₀, ho₀mem, by simp [ho₀name]⟩
    obtain ⟨q, hfind⟩ := hfind
    have hqmem := List.mem_of_find?_eq_some hfind
    have hqname : q.name = d.name := by
      have := List.find?_some hfind
      simpa using this
    have hqo : q = o₀ :=
      List.inj_on_of_nodup_map hno hqmem ho₀mem (by rw [hqname, ho₀name])
    subst hqo
    have hpo : patchObjectsByName objs d.name (extendOps v) =
        Except.ok (setExpireAfter q v,
          objs.map fun p => if p.name = d.name then setExpireAfter q v else p) := by
      unfold patchObjectsByName
      simp only [hfind, applyPatchOps_extendOps, ho₀ea, reduceIte]
    simp only [patchEach, hpo]
    have hnames : ((objs.map fun p => if p.name = d.name then setExpireAfter q v else p).map
        KObject.name) = objs.map KObject.name := by
      rw [List.map_map]
      apply List.map_congr_left
      intro p hp
      simp only [Function.comp_apply]
      by_cases hn : p.name = d.name
      · rw [if_pos hn, setExpireAfter_name, hqname, hn]
      · rw [if_neg hn]
    have hsub₁ : ∀ d' ∈ rest,
        ∃ o ∈ (objs.map fun p => if p.name = d.name then setExpireAfter q v else p),
          o.name = d'.name ∧ hasExpireAfter o = true := by
      intro d' hd'
      obtain ⟨o', ho', ho'name, ho'ea⟩ := hsub d' (List.mem_cons_of_mem _ hd')
      have hne : o'.name ≠ d.name := by
        rw [ho'name]
        intro hcontra
        exact hnlc.1 (hcontra ▸ List.mem_map_of_mem KObject.name hd')
      refine ⟨o', ?_, ho'name, ho'ea⟩
      apply List.mem_map.mpr
      exact ⟨o', ho', by rw [if_neg hne]⟩
    rw [ih _ (hnames ▸ hno) hnlc.2 hsub₁]
    congr 1
    rw [List.map_map]
    apply List.map_congr_left
    intro p hp
    simp only [Function.comp_apply]
    by_cases hn : p.name = d.name
    · rw [if_pos hn]
      have hqp : p = q :=
        List.inj_on_of_nodup_map hno hp hqmem (by rw [hn, hqname])
      have hnotin : ¬((setExpireAfter q v).name ∈ rest.map KObject.name) := by
        rw [setExpireAfter_name, hqname]
        exact hnlc.1
      rw [if_neg hnotin]
      have hin : p.name ∈ (d :: rest).map KObject.name := by
        rw [hn]
        simp
      rw [if_pos hin, hqp]
    · rw [if_neg hn]
      by_cases hin : p.name ∈ rest.map KObject.name
      · rw [if_pos hin, if_pos (by simp [hin])]
      · rw [if_neg hin, if_neg (by simp [hn, hin])]

theorem map_setEA_names (objs : List KObject) (v : Nat) (names : List String) :
    ((objs.map fun o => if o.name ∈ names then setExpireAfter o v else o).map
      KObject.name) = objs.map KObject.name := by
  rw [List.map_map]
  apply List.map_congr_left
  intro p _
  simp only [Function.comp_apply]
  by_cases h : p.name ∈ names
  · rw [if_pos h, setExpireAfter_name]
  · rw [if_neg h]

theorem map_setEA_matching (objs : List KObject) (v : Nat)
    (sel : List (String × String)) (o' : KObject)
    (ho' : o' ∈ objs.map fun o =>
      if o.name ∈ (objs.filter (matchesSelector sel)).map KObject.name
      then setExpireAfter o v else o)
    (hm : matchesSelector sel o' = true) :
    aget o'.annotations AnnotationExpireAfter = some (AnnVal.time v) := by
  obtain ⟨o, ho, rfl⟩ := List.mem_map.mp ho'
  by_cases hin : o.name ∈ (objs.filter (matchesSelector sel)).map KObject.name
  · rw [if_pos hin]
    exact setExpireAfter_get o v
  · rw [if_neg hin] at hm ⊢
    exact absurd (List.mem_map_of_mem KObject.name (List.mem_filter.mpr ⟨ho, hm⟩)) hin

/-- The exact result of a fault-free ExtendServices on a cluster with unique
names whose selector-matching objects all carry the annotation. -/
theorem ExtendServices_spec (f : Faults) (now : Nat) (input : ExtendInput)
    (c : Cluster)
    (hld : f.listDeploymentsFails = false) (hls : f.listServicesFails = false)
    (hnd : (c.deployments.map KObject.name).Nodup)
    (hns : (c.services.map KObject.name).Nodup)
    (hea : ∀ o ∈ c.deployments ++ c.services,
      matchesSelector input.GetLabels o = true → hasExpireAfter o = true) :
    ExtendServices f now input c = Except.ok
      { deployments := c.deployments.map fun o =>
          if o.name ∈ (c.deployments.filter (matchesSelector input.GetLabels)).map
            KObject.name
          then setExpireAfter o (now + input.duration) else o,
        services := c.services.map fun o =>
          if o.name ∈ (c.services.filter (matchesSelector input.GetLabels)).map
            KObject.name
          then setExpireAfter o (now + input.duration) else o } := by
  have hnlD : (((c.deployments.filter (matchesSelector input.GetLabels)).map
      KObject.name)).Nodup :=
    hnd.sublist ((List.filter_sublist _).map KObject.name)
  have hsubD : ∀ d ∈ c.deployments.filter (matchesSelector input.GetLabels),
      ∃ o ∈ c.deployments, o.name = d.name ∧ hasExpireAfter o = true := by
    intro d hd
    obtain ⟨hmem, hsel⟩ := List.mem_filter.mp hd
    exact ⟨d, hmem, rfl, hea d (List.mem_append_left _ hmem) hsel⟩
  have hnlS : (((c.services.filter (matchesSelector input.GetLabels)).map
      KObject.name)).Nodup :=
    hns.sublist ((List.filter_sublist _).map KObject.name)
  have hsubS : ∀ d ∈ c.services.filter (matchesSelector input.GetLabels),
      ∃ o ∈ c.services, o.name = d.name ∧ hasExpireAfter o = true := by
    intro d hd
    obtain ⟨hmem, hsel⟩ := List.mem_filter.mp hd
    exact ⟨d, hmem, rfl, hea d (List.mem_append_right _ hmem) hsel⟩
  have hpd := patchEach_extend (now + input.duration) "could not patch deployment"
    (c.deployments.filter (matchesSelector input.GetLabels)) c.deployments hnd hnlD hsubD
  have hps := patchEach_extend (now + input.duration) "could not patch service"
    (c.services.filter (matchesSelector input.GetLabels)) c.services hns hnlS hsubS
  unfold ExtendServices K8sClient.ListDeployments K8sClient.ListServices
  simp only [hld, hls, Bool.false_eq_true, reduceIte, hpd, hps]

/-- C7: ExtendServices with duration d at time t replaces the expire-after
annotation with t+d on every deployment and service matching the sanitized
pool-id and test-id selector, and a second extend (with any duration, larger
or smaller) overwrites again, so the stored deadline is always the most
recent t+d. -/
theorem extend_overwrites_deadline (f : Faults) (pid tid : String)
    (dur₁ dur₂ now₁ now₂ : Nat) (c : Cluster)
    (hld : f.listDeploymentsFails = false) (hls : f.listServicesFails = false)
    (hnd : (c.deployments.map KObject.name).Nodup)
    (hns : (c.services.map KObject.name).Nodup)
    (hea : ∀ o ∈ c.deployments ++ c.services,
      matchesSelector
        (ExtendInput.GetLabels { poolId := pid, testId := tid, duration := dur₁ }) o = true →
      hasExpireAfter o = true) :
    ∃ c₁, ExtendServices f now₁ { poolId := pid, testId := tid, duration := dur₁ } c =
        Except.ok c₁ ∧
      (∀ o ∈ c₁.deployments ++ c₁.services,
        matchesSelector
          (ExtendInput.GetLabels { poolId := pid, testId := tid, duration := dur₁ }) o = true →
        aget o.annotations AnnotationExpireAfter = some (AnnVal.time (now₁ + dur₁))) ∧
      ∃ c₂, ExtendServices f now₂ { poolId := pid, testId := tid, duration := dur₂ } c₁ =
          Except.ok c₂ ∧
        (∀ o ∈ c₂.deployments ++ c₂.services,
          matchesSelector
            (ExtendInput.GetLabels { poolId := pid, testId := tid, duration := dur₁ }) o = true →
          aget o.annotations AnnotationExpireAfter = some (AnnVal.time (now₂ + dur₂))) := by
  have hspec₁ := ExtendServices_spec f now₁ { poolId := pid, testId := tid, duration := dur₁ }
    c hld hls hnd hns hea
  refine ⟨_, hspec₁, ?_, ?_⟩
  · intro o ho hm
    rcases List.mem_append.mp ho with hmem | hmem
    · exact map_setEA_matching c.deployments _ _ o hmem hm
    · exact map_setEA_matching c.services _ _ o hmem hm
  · have hnd₁ : (((c.deployments.map fun o =>
        if o.name ∈ (c.deployments.filter (matchesSelector
          (ExtendInput.GetLabels { poolId := pid, testId := tid, duration := dur₁ }))).map
          KObject.name
        then setExpireAfter o (now₁ + dur₁) else o).map KObject.name)).Nodup := by
      rw [map_setEA_names]
      exact hnd
    have hns₁ : (((c.services.map fun o =>
        if o.name ∈ (c.services.filter (matchesSelector
          (ExtendInput.GetLabels { poolId := pid, testId := tid, duration := dur₁ }))).map
          KObject.name
        then setExpireAfter o (now₁ + dur₁) else o).map KObject.name)).Nodup := by
      rw [map_setEA_names]
      exact hns
    have hea₁ : ∀ o ∈ (c.deployments.map fun o =>
        if o.name ∈ (c.deployments.filter (matchesSelector
          (ExtendInput.GetLabels { poolId := pid, testId := tid, duration := dur₁ }))).map
          KObject.name
        then setExpireAfter o (now₁ + dur₁) else o) ++
        (c.services.map fun o =>
        if o.name ∈ (c.services.filter (matchesSelector
          (ExtendInput.GetLabels { poolId := pid, testId := tid, duration := dur₁ }))).map
          KObject.name
        then setExpireAfter o (now₁ + dur₁) else o),
        matchesSelector
          (ExtendInput.GetLabels { poolId := pid, testId := tid, duration := dur₂ }) o = true →
        hasExpireAfter o = true := by
      intro o ho hm
      unfold hasExpireAfter
      rcases List.mem_append.mp ho with hmem | hmem
      · rw [map_setEA_matching c.deployments _ _ o hmem hm]
        rfl
      · rw [map_setEA_matching c.services _ _ o hmem hm]
        rfl
    have hspec₂ := ExtendServices_spec f now₂ { poolId := pid, testId := tid, duration := dur₂ }
      { deployments := c.deployments.map fun o =>
          if o.name ∈ (c.deployments.filter (matchesSelector
            (ExtendInput.GetLabels { poolId := pid, testId := tid, duration := dur₁ }))).map
            KObject.name
          then setExpireAfter o (now₁ + dur₁) else o,
        services := c.services.map fun o =>
          if o.name ∈ (c.services.filter (matchesSelector
            (ExtendInput.GetLabels { poolId := pid, testId := tid, duration := dur₁ }))).map
            KObject.name
          then setExpireAfter o (now₁ + dur₁) else o }
      hld hls hnd₁ hns₁ hea₁
    refine ⟨_, hspec₂, ?_⟩
    intro o ho hm
    rcases List.mem_append.mp ho with hmem | hmem
    · exact map_setEA_matching _ _ _ o hmem hm
    · exact map_setEA_matching _ _ _ o hmem hm

/-! ## The creation-timestamp sort -/

theorem mem_insertByCreation (d x : KObject) (l : List KObject) :
    x ∈ insertByCreation d l ↔ x = d ∨ x ∈ l := by
  induction l with
  | nil => simp [insertByCreation]
  | cons e rest ih =>
    by_cases h : d.creationTimestamp < e.creationTimestamp
    · rw [insertByCreation, if_pos h]
      simp only [List.mem_cons]
    · rw [insertByCreation, if_neg h]
      simp only [List.mem_cons, ih]
      tauto

theorem mem_sortByCreation (x : KObject) (l : List KObject) :
    x ∈ sortByCreation l ↔ x ∈ l := by
  induction l with
  | nil => simp [sortByCreation]
  | cons d rest ih =>
    rw [sortByCreation, mem_insertByCreation, ih]
    simp

/-- Ordering by creation timestamp. -/
def leTS (a b : KObject) : Prop := a.creationTimestamp ≤ b.creationTimestamp

theorem insertByCreation_pairwise (d : KObject) (l : List KObject)
    (h : l.Pairwise leTS) : (insertByCreation d l).Pairwise leTS := by
  induction l with
  | nil => simp [insertByCreation, List.pairwise_cons]
  | cons e rest ih =>
    obtain ⟨he, hrest⟩ := List.pairwise_cons.mp h
    by_cases hlt : d.creationTimestamp < e.creationTimestamp
    · rw [insertByCreation, if_pos hlt]
      apply List.pairwise_cons.mpr
      refine ⟨?_, h⟩
      intro x hx
      rcases List.mem_cons.mp hx with rfl | hx
      · exact Nat.le_of_lt hlt
      · exact Nat.le_trans (Nat.le_of_lt hlt) (he x hx)
    · rw [insertByCreation, if_neg hlt]
      apply List.pairwise_cons.mpr
      refine ⟨?_, ih hrest⟩
      intro x hx
      rcases (mem_insertByCreation d x rest).mp hx with rfl | hx
      · exact Nat.le_of_not_lt hlt
      · exact he x hx

theorem sortByCreation_pairwise (l : List KObject) :
    (sortByCreation l).Pairwise leTS := by
  induction l with
  | nil => simp [sortByCreation]
  | cons d rest ih => exact insertByCreation_pairwise d _ ih

/-- The head of the sorted sequence is a member of minimal creation
timestamp. -/
theorem sortByCreation_head_min (l : List KObject) (ch : KObject)
    (rest : List KObject) (h : sortByCreation l = ch :: rest) :
    ch ∈ l ∧ ∀ x ∈ l, ch.creationTimestamp ≤ x.creationTimestamp := by
  have hmem : ch ∈ l := (mem_sortByCreation ch l).mp (h ▸ List.mem_cons_self ch rest)
  refine ⟨hmem, fun x hx => ?_⟩
  have hx' : x ∈ ch :: rest := h ▸ (mem_sortByCreation x l).mpr hx
  rcases List.mem_cons.mp hx' with rfl | hx'
  · exact Nat.le_refl _
  · have hp := sortByCreation_pairwise l
    rw [h] at hp
    exact (List.pairwise_cons.mp hp).1 x hx'

/-- C1: ClaimService first spawns one fresh idle pair (appended to the
cluster), then lists idle workloads with the raw pool-id, component-type,
container-name and idle=true selector, sorts ascending by creation
timestamp, and proceeds to claim the head of the sorted sequence, which has
minimal creation timestamp among everything listed. -/
theorem claim_spawns_then_picks_oldest (f : Faults) (poolId uid : String)
    (now : Nat) (input : RunInput) (c : Cluster) (d₀ : KObject) (c₁ : Cluster)
    (hspawn : spawnDeployment uid now input.toSpawnInput c = Except.ok (d₀, c₁))
    (hlist : f.listDeploymentsFails = false)
    (hne : c₁.deployments.filter (matchesSelector (claimSelector poolId input)) ≠ []) :
    c₁.deployments = c.deployments ++
      [{ ApplicationFactory.CreateDeployment uid input.toSpawnInput now with
        creationTimestamp := now }] ∧
    c₁.services = c.services ++
      [{ ApplicationFactory.CreateService uid input.toSpawnInput now with
        creationTimestamp := now }] ∧
    aget d₀.labels LableIdle = some "true" ∧
    ∃ ch rest,
      sortByCreation
        (c₁.deployments.filter (matchesSelector (claimSelector poolId input))) =
        ch :: rest ∧
      ch ∈ c₁.deployments.filter (matchesSelector (claimSelector poolId input)) ∧
      (∀ x ∈ c₁.deployments.filter (matchesSelector (claimSelector poolId input)),
        ch.creationTimestamp ≤ x.creationTimestamp) ∧
      (∀ (s : KObject) (c₂ : Cluster),
        claimDeployment now ch input c₁ = Except.ok (s, c₂) →
        ClaimService f poolId uid now input c = GoResult.ok (s, c₂)) := by
  obtain ⟨hd0, hdeps, hsvcs, -, -⟩ :=
    spawnDeployment_ok uid now input.toSpawnInput c d₀ c₁ hspawn
  refine ⟨by rw [hdeps, hd0], hsvcs, ?_, ?_⟩
  · rw [hd0]
    exact (aget_factory_labels _ _ _ _).1
  · cases hsort : sortByCreation
        (c₁.deployments.filter (matchesSelector (claimSelector poolId input))) with
    | nil =>
      exfalso
      cases hf : c₁.deployments.filter (matchesSelector (claimSelector poolId input)) with
      | nil => exact hne hf
      | cons a as =>
        have ha : a ∈ sortByCreation
            (c₁.deployments.filter (matchesSelector (claimSelector poolId input))) :=
          (mem_sortByCreation a _).mpr (by rw [hf]; exact List.mem_cons_self a as)
        rw [hsort] at ha
        exact absurd ha (List.not_mem_nil a)
    | cons ch rest =>
      obtain ⟨hchmem, hchmin⟩ := sortByCreation_head_min _ ch rest hsort
      refine ⟨ch, rest, rfl, hchmem, hchmin, ?_⟩
      intro s c₂ hcd
      unfold ClaimService K8sClient.ListDeployments
      simp only [hspawn, hlist, Bool.false_eq_true, reduceIte, hsort, hcd]

/-! ## Concrete instances for the witnesses -/

def redisSpec : ContainerSpec :=
  { repository := "redis", tag := "7-alpine", env := [], cmd := [],
    portBindings := [("main", { containerPort := 6379, hostPort := 0, protocol := "tcp" })] }

def wRun : RunInput :=
  { poolId := "pa", testId := "t1", testName := "", componentType := "redis",
    componentName := "cache", containerName := "main", spec := redisSpec,
    expireAfter := 600 }

def wDep : KObject :=
  { ApplicationFactory.CreateDeployment "abcd1234" wRun.toSpawnInput 100 with
    creationTimestamp := 100 }

def wSvc : KObject :=
  { ApplicationFactory.CreateService "abcd1234" wRun.toSpawnInput 100 with
    creationTimestamp := 100 }

def wCluster : Cluster := { deployments := [wDep], services := [wSvc] }

def wClaimed : KObject :=
  { name := "p-pa-abcd1234-redis-main",
    labels := [("kubrun/pool-id", "pa"), ("kubrun/uid", "abcd1234"),
               ("kubrun/component-type", "redis"), ("kubrun/container-name", "main"),
               ("kubrun/test-id", "t1"), ("kubrun/component-name", "cache")],
    annotations := [("kubrun/expire-after", AnnVal.time 700)],
    creationTimestamp := 100 }

def wLeased : KObject :=
  { name := "p-pa-abcd1234-redis-main",
    labels := [("kubrun/pool-id", "pa"), ("kubrun/uid", "abcd1234"),
               ("kubrun/component-type", "redis"), ("kubrun/container-name", "main"),
               ("kubrun/test-id", "t1"), ("kubrun/component-name", "cache")],
    annotations := [("kubrun/expire-after", AnnVal.time 1600)],
    creationTimestamp := 1000 }

def wLeasedCluster : Cluster := { deployments := [wLeased], services := [wLeased] }

def wDue : KObject :=
  { name := "d1", labels := [],
    annotations := [(AnnotationExpireAfter, AnnVal.time 50)], creationTimestamp := 1 }

def wKeep : KObject :=
  { name := "d2", labels := [],
    annotations := [(AnnotationExpireAfter, AnnVal.time 200)], creationTimestamp := 2 }

def wBare : KObject :=
  { name := "s1", labels := [], annotations := [], creationTimestamp := 3 }

def wExtDep : KObject :=
  { name := "d1", labels := [(LabelPoolId, "pa"), (LabelTestId, "t1")],
    annotations := [(AnnotationExpireAfter, AnnVal.time 100)], creationTimestamp := 1 }

def wExtSvc : KObject :=
  { name := "s1", labels := [(LabelPoolId, "pa"), (LabelTestId, "t1")],
    annotations := [(AnnotationExpireAfter, AnnVal.time 100)], creationTimestamp := 2 }

def wExtCluster : Cluster := { deployments := [wExtDep], services := [wExtSvc] }

/-! ## Witnesses -/

theorem claim_spawns_then_picks_oldest_witness :
    spawnDeployment "abcd1234" 100 wRun.toSpawnInput { deployments := [], services := [] } =
      Except.ok (wDep, wCluster) ∧
    noFaults.listDeploymentsFails = false ∧
    wCluster.deployments.filter (matchesSelector (claimSelector "pa" wRun)) ≠ [] ∧
    aget wDep.labels LableIdle = some "true" :=
  ⟨rfl, rfl, by decide,
    (claim_spawns_then_picks_oldest noFaults "pa" "abcd1234" 100 wRun
      { deployments := [], services := [] } wDep wCluster rfl rfl (by decide)).2.2.1⟩

theorem factory_names_pair_and_service_retrievable_witness :
    spawnDeployment "abcd1234" 100 wRun.toSpawnInput { deployments := [], services := [] } =
      Except.ok (wDep, wCluster) ∧
    K8sClient.GetService wCluster wDep.name = Except.ok wSvc :=
  ⟨rfl, (factory_names_pair_and_service_retrievable "abcd1234" wRun.toSpawnInput 100
    { deployments := [], services := [] } wDep wCluster rfl).2.2.2⟩

theorem expire_sweep_exact_witness :
    (∀ o ∈ ([wDue, wKeep] ++ [wBare] : List KObject), rawExpire o = false) ∧
    ExpireServices noFaults 100 { deployments := [wDue, wKeep], services := [wBare] } =
      Except.ok { deployments := [wKeep], services := [wBare] } :=
  ⟨by decide,
   (expire_sweep_exact noFaults 100 { deployments := [wDue, wKeep], services := [wBare] }
     rfl rfl (fun _ => rfl) (fun _ => rfl) (by decide)).1⟩

theorem idle_exclusivity_invariant_witness :
    clusterIdleExclusive wCluster ∧
    runPoolOp wCluster (PoolOp.expire noFaults 50) = Except.ok wCluster ∧
    clusterIdleExclusive wCluster :=
  ⟨by decide, rfl,
   idle_exclusivity_invariant.2.2 (PoolOp.expire noFaults 50) wCluster wCluster
     (by decide) rfl⟩

theorem claim_release_roundtrip_fixedpoint_witness :
    K8sNameString ["t1"] = "t1" ∧
    ClaimService noFaults "pa" "abcd1234" 1000 wRun { deployments := [], services := [] } =
      GoResult.ok (wLeased, wLeasedCluster) ∧
    ReleaseServices noFaults (StopInput.GetLabels { poolId := "pa", testId := "t1" })
      wLeasedCluster = Except.ok { deployments := [], services := [] } ∧
    (∀ o ∈ ({ deployments := [], services := [] } : Cluster).deployments,
      ¬(aget o.labels LabelPoolId = some (K8sNameString ["pa"]) ∧
        aget o.labels LabelTestId = some "t1")) :=
  ⟨rfl, rfl, rfl,
   (claim_release_roundtrip_fixedpoint wRun "abcd1234" 1000
     { deployments := [], services := [] } wLeasedCluster
     { deployments := [], services := [] } wLeased rfl rfl rfl).1⟩

theorem extend_overwrites_deadline_witness :
    ∃ c₁, ExtendServices noFaults 10 { poolId := "pa", testId := "t1", duration := 500 }
        wExtCluster = Except.ok c₁ ∧
      (∀ o ∈ c₁.deployments ++ c₁.services,
        matchesSelector
          (ExtendInput.GetLabels { poolId := "pa", testId := "t1", duration := 500 }) o = true →
        aget o.annotations AnnotationExpireAfter = some (AnnVal.time (10 + 500))) ∧
      ∃ c₂, ExtendServices noFaults 20 { poolId := "pa", testId := "t1", duration := 100 } c₁ =
          Except.ok c₂ ∧
        (∀ o ∈ c₂.deployments ++ c₂.services,
          matchesSelector
            (ExtendInput.GetLabels { poolId := "pa", testId := "t1", duration := 500 }) o = true →
          aget o.annotations AnnotationExpireAfter = some (AnnVal.time (20 + 100))) :=
  extend_overwrites_deadline noFaults "pa" "t1" 500 100 10 20 wExtCluster rfl rfl
    (by decide) (by decide) (by decide)

theorem sanitizer_idempotent_factory_names_canonical_witness :
    K8sNameString [K8sNameString ["Pool A"]] = K8sNameString ["Pool A"] :=
  sanitizer_idempotent_factory_names_canonical.1 ["Pool A"]

theorem warmup_skips_unknown_types_witness :
    WarmUp (fun n => toString n) 50 { poolId := "pb", components := [("nope", 1)] }
      { deployments := [], services := [] } =
      Except.ok { deployments := [], services := [] } :=
  (warmup_skips_unknown_types (fun n => toString n) 50
    { poolId := "pb", components := [("nope", 1)] }
    { deployments := [], services := [] }).2 (by decide)

theorem testid_written_raw_selectors_sanitized_witness :
    applyPatchOps wDep (claimOps wRun 100) = some wClaimed ∧
    aget wClaimed.labels LabelTestId = some "t1" :=
  ⟨rfl, (testid_written_raw_selectors_sanitized wRun 100 0 wDep wClaimed rfl).1⟩
